import Mathlib

/-
Verification development for the arxiv_downloader repository.

Shallow embedding of the download/dedup/retry pipeline implemented in
src/download.py and src/retry.py.  Pure data transformations are translated
into Lean functions; filesystem and network effects are made explicit:

  * the process-wide deduplication map GLOBAL_EXISTING_PDFS becomes an
    association list `List (String × String)` with Python-dict semantics
    (assignment replaces in place, otherwise appends);
  * the filesystem is an association list from path to file size;
  * network transfer (wget) and the speed probe are oracles supplied in an
    `Env` record; a probe result is a `WithTop ℚ` (⊤ models float('inf'));
  * `Path.resolve()` is modelled as the identity: paths in the model are
    taken to be canonical strings;
  * the human-readable detail strings produced by the workers are abstracted
    into the inductive `Detail`, which carries the same data as the
    corresponding Python format strings.
-/

namespace ArxivDL

/- Python truthiness of an optional string: None and "" are falsy. -/
def truthy : Option String → Bool
  | none => false
  | some s => if s = "" then false else true

/- Python `a or b` over optional strings (truthiness based). -/
def pyOr (a b : Option String) : Option String :=
  if truthy a then a else b

/- Association-list lookup (Python `d[k]` / `k in d`). -/
def alookup {α : Type} : List (String × α) → String → Option α
  | [], _ => none
  | kv :: m, k => if kv.1 = k then some kv.2 else alookup m k

/- Python dict assignment `d[k] = v`: replace in place if the key is
present, otherwise append, preserving insertion order. -/
def ainsert {α : Type} (m : List (String × α)) (k : String) (v : α) :
    List (String × α) :=
  if (alookup m k).isSome then
    m.map (fun kv => if kv.1 = k then (k, v) else kv)
  else m ++ [(k, v)]

/- os.path.join, on abstract (already canonical) path strings. -/
def joinPath (a b : String) : String := a ++ "/" ++ b

/- sanitize_filename (download.py line 16): replace '/' by '_'. -/
def sanitize_filename (s : String) : String :=
  ⟨s.data.map (fun c => if c = '/' then '_' else c)⟩

/- First regex of sanitize_for_dirname (download.py line 24):
re.sub(r'[^a-zA-Z0-9_.-]+', '_', text) — every maximal run of disallowed
characters becomes a single '_'.  The boolean argument records whether the
previous character was part of a disallowed run. -/
def dirnameAllowed (c : Char) : Bool :=
  c.isAlpha || c.isDigit || c = '_' || c = '.' || c = '-'

def subDisallowedRuns : List Char → Bool → List Char
  | [], _ => []
  | c :: cs, inRun =>
    if dirnameAllowed c then c :: subDisallowedRuns cs false
    else if inRun then subDisallowedRuns cs true
    else '_' :: subDisallowedRuns cs true

/- Second regex of sanitize_for_dirname (download.py line 25):
re.sub(r'_+', '_', ...) — collapse runs of underscores. -/
def collapseUnderscores : List Char → Bool → List Char
  | [], _ => []
  | c :: cs, prevU =>
    if c = '_' then
      if prevU then collapseUnderscores cs true
      else '_' :: collapseUnderscores cs true
    else c :: collapseUnderscores cs false

/- sanitize_for_dirname (download.py lines 22-28). -/
def sanitize_for_dirname (text : String) (maxLen : Nat) : String :=
  let s1 := subDisallowedRuns text.data false
  let s2 := collapseUnderscores s1 false
  let s3 := if s2.head? = some '_' then s2.tail else s2
  let s4 := if s3.getLast? = some '_' then s3.dropLast else s3
  if 0 < maxLen ∧ maxLen < s4.length then ⟨s4.take maxLen⟩ else ⟨s4⟩

/- re.search(r'(_\d{8}_\d{6})$', stem) (download.py lines 221, 231): the
pattern has fixed length 16, so it matches iff the last 16 characters are
'_', 8 digits, '_', 6 digits.  We test the reversed character list. -/
def revTsMatch : List Char → Bool
  | a1 :: a2 :: a3 :: a4 :: a5 :: a6 :: u1 :: b1 :: b2 :: b3 :: b4 :: b5 ::
      b6 :: b7 :: b8 :: u2 :: _ =>
    a1.isDigit && a2.isDigit && a3.isDigit && a4.isDigit && a5.isDigit &&
    a6.isDigit && (u1 = '_') && b1.isDigit && b2.isDigit && b3.isDigit &&
    b4.isDigit && b5.isDigit && b6.isDigit && b7.isDigit && b8.isDigit &&
    (u2 = '_')
  | _ => false

/- Strip a trailing _\d{8}_\d{6} timestamp suffix, if present. -/
def stripTimestampSuffix (s : String) : String :=
  let r := s.data.reverse
  if revTsMatch r then ⟨(r.drop 16).reverse⟩ else s

/- "_".join(...) (download.py line 218). -/
def joinUnderscore : List String → String
  | [] => ""
  | [s] => s
  | s :: rest => s ++ "_" ++ joinUnderscore rest

/- The deterministic export mirror URL (download.py line 66). -/
def mirrorUrl (entryId : String) : String :=
  "https://export.arxiv.org/pdf/" ++ entryId

/- One paper record.  Python dict keys are modelled as optional fields
(a missing key reads as None). -/
structure Paper where
  entry_id : Option String := none
  pdf_url : Option String := none
  title : Option String := none
  keyword_from_query : Option String := none
  category_from_query : Option String := none
  primary_category : Option String := none
  failure_reason : Option String := none
  original_input_json : Option String := none
  retry_failed_reason : Option String := none
  last_retry_timestamp : Option String := none
deriving DecidableEq, Repr

/- The identity under which a record is deduplicated: its entry_id when
truthy, nothing otherwise. -/
def pid (p : Paper) : Option String :=
  if truthy p.entry_id then p.entry_id else none

inductive Status where
  | DOWNLOADED
  | EXISTED_SUBDIR
  | EXISTED_GLOBAL
  | FAILED
deriving DecidableEq, Repr

/- The detail component of a worker result, abstracting the Python
format strings while keeping their data. -/
inductive Detail where
  | missingId (title : String)
  | atPath (p : String)
  | noUrl (entryId title : String)
  | timeoutMsg (entryId url : String)
  | wgetFailed (entryId url : String) (code : Int) (stderr : String)
  | wgetNotFound
  | unknownError (entryId url msg : String)
deriving DecidableEq, Repr

def renderDetail : Detail → String
  | .missingId t => "missing entry_id; title: " ++ t
  | .atPath p => p
  | .noUrl e t => "cannot determine download url for " ++ e ++ " (" ++ t ++ ")"
  | .timeoutMsg e u => "download " ++ e ++ " (" ++ u ++ ") timed out"
  | .wgetFailed e u c s =>
      "wget failed for " ++ e ++ " (" ++ u ++ "). Code: " ++ toString c ++
        ". Stderr: " ++ s
  | .wgetNotFound => "wget command not found"
  | .unknownError e u m =>
      "unknown error downloading " ++ e ++ " (" ++ u ++ "): " ++ m

/- Result of one wget invocation (download.py lines 153-186). -/
inductive TransferOutcome where
  | success (size : Nat)
  | timeoutExpired
  | calledProcessError (code : Int) (stderr : String)
  | toolMissing
  | otherException (msg : String)
deriving DecidableEq, Repr

/- The mutable world visible to a fetch worker: the process-wide
GLOBAL_EXISTING_PDFS map (safe identity → path) and the filesystem
(path → size). -/
structure WorldState where
  globalIndex : List (String × String)
  files : List (String × Nat)
deriving DecidableEq, Repr

def sizeAt (files : List (String × Nat)) (p : String) : Nat :=
  (alookup files p).getD 0

def setFile (files : List (String × Nat)) (p : String) (sz : Nat) :
    List (String × Nat) :=
  ainsert files p sz

def removeFile (files : List (String × Nat)) (p : String) :
    List (String × Nat) :=
  files.filter (fun kv => ¬ kv.1 = p)

/- External collaborators: the wget transfer, the speed probe
(⊤ = float('inf')), an oracle for a worker raising through the future, and
the query_details read back from an originating batch file (retry.py). -/
structure Env where
  wget : String → String → TransferOutcome
  measure : String → WithTop ℚ
  fault : Paper → Option String
  origQuery : String → Option (Option String × Option String)

/- choose_best_download_url's selection loop (download.py lines 89-94):
min_speed starts at float('inf'); strictly smaller measurements replace
the current best. -/
def selectMin :
    List (String × String × WithTop ℚ) →
    Option (String × String) × WithTop ℚ →
    Option (String × String) × WithTop ℚ
  | [], acc => acc
  | nus :: rest, acc =>
    if nus.2.2 < acc.2 then selectMin rest (some (nus.1, nus.2.1), nus.2.2)
    else selectMin rest acc

/- choose_best_download_url (download.py lines 64-102).  The second
component records whether the speed probe ran (a network access). -/
def choose_best_download_url (entryId : String) (primary : Option String)
    (measure : String → WithTop ℚ) : Option String × Bool :=
  let mirror := mirrorUrl entryId
  let urlsToTest : List (String × String) :=
    (if truthy primary then [("primary", primary.getD "")] else []) ++
    (if ¬ mirror = "" ∧ ¬ primary = some mirror then
       [("export_mirror", mirror)] else [])
  if urlsToTest = [] then (none, false)
  else if urlsToTest.length = 1 then (urlsToTest.head?.map (·.2), false)
  else
    let speeds := urlsToTest.map (fun nu => (nu.1, nu.2, measure nu.2))
    let bm := selectMin speeds (none, ⊤)
    match bm.1 with
    | some bu =>
      if bm.2 ≠ ⊤ then (some bu.2, true)
      else ((if truthy primary then primary else some mirror), true)
    | none => ((if truthy primary then primary else some mirror), true)

/- URL resolution by source policy (download.py lines 133-145). -/
def resolve_download_url (pref entryId : String) (primary : Option String)
    (measure : String → WithTop ℚ) : Option String × Bool :=
  if pref = "primary" then
    ((if truthy primary then primary else some (mirrorUrl entryId)), false)
  else if pref = "export" then (some (mirrorUrl entryId), false)
  else if pref = "fastest" then
    choose_best_download_url entryId primary measure
  else
    ((if truthy primary then primary else some (mirrorUrl entryId)), false)

/- Target path of a fetch: destinationDir/safeIdentity.pdf
(download.py lines 115-117). -/
def targetPath (subDirPath entryId : String) : String :=
  joinPath subDirPath (sanitize_filename entryId ++ ".pdf")

/- Outcome of one fetch-worker invocation.  `networkCalled` records whether
any network access (probe or transfer) happened. -/
structure FetchOut where
  entryId : Option String
  status : Status
  detail : Detail
  state : WorldState
  networkCalled : Bool
deriving DecidableEq, Repr

/- download_single_pdf (download.py lines 104-186). -/
def download_single_pdf (env : Env) (paper : Paper) (subDirPath pref : String)
    (st : WorldState) : FetchOut :=
  let title := paper.title.getD "UnknownTitle"
  if ¬ truthy paper.entry_id then
    ⟨none, .FAILED, .missingId title, st, false⟩
  else
    let entryId := paper.entry_id.getD ""
    let safe := sanitize_filename entryId
    let outPath := targetPath subDirPath entryId
    let gHit : Option String :=
      if st.globalIndex = [] then none else alookup st.globalIndex safe
    match gHit with
    | some gp =>
      if gp = outPath then
        ⟨some entryId, .EXISTED_SUBDIR, .atPath outPath, st, false⟩
      else
        ⟨some entryId, .EXISTED_GLOBAL, .atPath gp, st, false⟩
    | none =>
      if 0 < sizeAt st.files outPath then
        ⟨some entryId, .EXISTED_SUBDIR, .atPath outPath,
          ⟨ainsert st.globalIndex safe outPath, st.files⟩, false⟩
      else
        let up := resolve_download_url pref entryId paper.pdf_url env.measure
        if ¬ truthy up.1 then
          ⟨some entryId, .FAILED, .noUrl entryId title, st, up.2⟩
        else
          let url := up.1.getD ""
          match env.wget url outPath with
          | .success sz =>
            ⟨some entryId, .DOWNLOADED, .atPath outPath,
              ⟨ainsert st.globalIndex safe outPath,
               setFile st.files outPath sz⟩, true⟩
          | .timeoutExpired =>
            ⟨some entryId, .FAILED, .timeoutMsg entryId url,
              ⟨st.globalIndex, removeFile st.files outPath⟩, true⟩
          | .calledProcessError code stderr =>
            ⟨some entryId, .FAILED, .wgetFailed entryId url code stderr,
              ⟨st.globalIndex, removeFile st.files outPath⟩, true⟩
          | .toolMissing =>
            ⟨some entryId, .FAILED, .wgetNotFound, st, up.2⟩
          | .otherException m =>
            ⟨some entryId, .FAILED, .unknownError entryId url m,
              ⟨st.globalIndex, removeFile st.files outPath⟩, true⟩

/- Subdirectory naming for a batch (download.py lines 206-239).  The inputs
are the query facets parsed from the batch file and the stem of the batch
filename (os.path.splitext(os.path.basename(path))[0]). -/
def fallbackDirName (jsonStem : String) : String :=
  let stripped := stripTimestampSuffix jsonStem
  let n := sanitize_for_dirname stripped 60
  if n = "" then "unknown_query_parameters" else n

def pdf_output_subdir_name (keyword category jsonStem : String) : String :=
  let parts : List String :=
    (if ¬ keyword = "" then ["kw_" ++ sanitize_for_dirname keyword 35]
     else []) ++
    (if ¬ category = "" then ["cat_" ++ sanitize_for_dirname category 25]
     else [])
  let name :=
    if ¬ parts = [] then
      let n := joinUnderscore (parts.filter (fun s => ¬ s = ""))
      if n = "" then fallbackDirName jsonStem else n
    else fallbackDirName jsonStem
  if name = "" then "general_arxiv_downloads" else name

/- The per-batch _metadata.json payload (download.py lines 251-265), keeping
the fields the pipeline computes: total, four per-outcome counts, and the
four detail lists (entry id paired with the rendered detail). -/
structure Meta where
  total_planned : Nat
  downloaded_here_count : Nat
  existed_in_subdir_count : Nat
  skipped_global_duplicate_count : Nat
  failed_download_count : Nat
  details_downloaded_here : List (String × String)
  details_existed_subdir : List (String × String)
  details_skipped_global_duplicates : List (String × String)
  details_failed_downloads : List (String × String)
deriving DecidableEq, Repr

def emptyMeta (total : Nat) : Meta :=
  ⟨total, 0, 0, 0, 0, [], [], [], []⟩

/- paper_map (download.py line 268): dict comprehension keyed by truthy
entry_id; a later paper with the same id overwrites an earlier one. -/
def papersMap (papers : List Paper) : List (String × Paper) :=
  papers.foldl
    (fun m p => if truthy p.entry_id then ainsert m (p.entry_id.getD "") p
                else m) []

/- A failure record (download.py lines 302-304): a copy of the original
record augmented with the failure reason and the originating batch file. -/
def mkFailureRecord (p : Paper) (reason src : String) : Paper :=
  { p with failure_reason := some reason, original_input_json := some src }

/- Python `a or b or "Unknown ID"` over strings ("" falsy). -/
def pyOrS (a b : String) : String := if a = "" then b else a

structure BatchAcc where
  meta : Meta
  failures : List Paper
  state : WorldState

/- The fan-in loop of download_pdfs_from_json (download.py lines 276-329),
sequentialised in submission order (the Python consumers are
order-independent and keyed by identity). -/
def runSubmitted (env : Env) (pref subDir jsonPath : String)
    (pmap : List (String × Paper)) :
    List Paper → BatchAcc → BatchAcc
  | [], acc => acc
  | p :: ps, acc =>
    let hint := p.entry_id.getD ""
    match env.fault p with
    | some m =>
      let reason := "Execution exception: " ++ m
      let meta1 := { acc.meta with
        failed_download_count := acc.meta.failed_download_count + 1 }
      let acc' :=
        match alookup pmap hint with
        | some orig =>
          { acc with
            meta := { meta1 with
              details_failed_downloads :=
                meta1.details_failed_downloads ++ [(hint, reason)] },
            failures := acc.failures ++ [mkFailureRecord orig reason jsonPath] }
        | none => { acc with meta := meta1 }
      runSubmitted env pref subDir jsonPath pmap ps acc'
    | none =>
      let out := download_single_pdf env p subDir pref acc.state
      let eid := (out.entryId.getD "")
      let acc' :=
        match out.status with
        | .DOWNLOADED =>
          { acc with
            meta := { acc.meta with
              downloaded_here_count := acc.meta.downloaded_here_count + 1,
              details_downloaded_here :=
                if truthy out.entryId then
                  acc.meta.details_downloaded_here ++
                    [(eid, renderDetail out.detail)]
                else acc.meta.details_downloaded_here },
            state := out.state }
        | .EXISTED_SUBDIR =>
          { acc with
            meta := { acc.meta with
              existed_in_subdir_count := acc.meta.existed_in_subdir_count + 1,
              details_existed_subdir :=
                if truthy out.entryId then
                  acc.meta.details_existed_subdir ++
                    [(eid, renderDetail out.detail)]
                else acc.meta.details_existed_subdir },
            state := out.state }
        | .EXISTED_GLOBAL =>
          { acc with
            meta := { acc.meta with
              skipped_global_duplicate_count :=
                acc.meta.skipped_global_duplicate_count + 1,
              details_skipped_global_duplicates :=
                if truthy out.entryId then
                  acc.meta.details_skipped_global_duplicates ++
                    [(eid, renderDetail out.detail)]
                else acc.meta.details_skipped_global_duplicates },
            state := out.state }
        | .FAILED =>
          let dm :=
            if renderDetail out.detail = "" then
              "Unknown error during download_single_pdf"
            else renderDetail out.detail
          let meta1 := { acc.meta with
            failed_download_count := acc.meta.failed_download_count + 1 }
          match alookup pmap hint with
          | some orig =>
            { acc with
              meta := { meta1 with
                details_failed_downloads :=
                  meta1.details_failed_downloads ++
                    [(pyOrS (pyOrS eid hint) "Unknown ID", dm)] },
              failures :=
                acc.failures ++ [mkFailureRecord orig dm jsonPath],
              state := out.state }
          | none => { acc with meta := meta1, state := out.state }
      runSubmitted env pref subDir jsonPath pmap ps acc'

/- download_pdfs_from_json (download.py lines 189-346).  The JSON document
is abstracted into its parsed components (papers, query facets, filename
stem); `mkdirOk` is the os.makedirs outcome.  Returns the failure-record
list, the metadata written (none when the batch aborted before the loop),
and the final world state. -/
def download_pdfs_from_json (env : Env) (papers : List Paper)
    (jsonPath baseDir keyword category jsonStem : String) (mkdirOk : Bool)
    (pref : String) (st : WorldState) :
    List Paper × Option Meta × WorldState :=
  if papers = [] then ([], none, st)
  else
    let subDirName := pdf_output_subdir_name keyword category jsonStem
    let subDir := joinPath baseDir subDirName
    if ¬ mkdirOk then (papers, none, st)
    else
      let pmap := papersMap papers
      let submitted := papers.filter (fun p => truthy p.entry_id)
      let acc := runSubmitted env pref subDir jsonPath pmap submitted
        ⟨emptyMeta papers.length, [], st⟩
      (acc.failures, some acc.meta, acc.state)

/- Failure-ledger merge, append_to_failed_log (download.py lines 374-461).
The merge of the paper lists is pure; the file-level behaviour is captured
by `newlyAdded` (count of genuinely new identity-bearing failures) and the
write condition. -/
def buildMap : List Paper → List (String × Paper) → List (String × Paper)
  | [], m => m
  | p :: ps, m =>
    match pid p with
    | some i => buildMap ps (ainsert m i p)
    | none => buildMap ps m

def addNew : List Paper → List (String × Paper) → Nat →
    List (String × Paper) × Nat
  | [], m, c => (m, c)
  | p :: ps, m, c =>
    match pid p with
    | some i =>
      if (alookup m i).isSome then addNew ps m c
      else addNew ps (ainsert m i p) (c + 1)
    | none => addNew ps m c

/- The duplicate test of the second loop of append_to_failed_log
(download.py lines 431-435): some identity-less entry of acc has the same
title. -/
def coversIdless (acc : List Paper) (p : Paper) : Bool :=
  acc.any (fun q => decide (pid q = none) && decide (q.title = p.title))

/- The second loop of append_to_failed_log (download.py lines 427-437):
re-append identity-less entries unless an identity-less entry with the same
title is already present. -/
def appendIdless : List Paper → List Paper → List Paper
  | acc, [] => acc
  | acc, p :: ps =>
    if pid p = none then
      if coversIdless acc p then appendIdless acc ps
      else appendIdless (acc ++ [p]) ps
    else appendIdless acc ps

/- The sublist of entries actually appended by `appendIdless` (proof
companion tracking the same recursion). -/
def appendIdlessExtra : List Paper → List Paper → List Paper
  | _, [] => []
  | acc, p :: ps =>
    if pid p = none then
      if coversIdless acc p then appendIdlessExtra acc ps
      else p :: appendIdlessExtra (acc ++ [p]) ps
    else appendIdlessExtra acc ps

/- Well-formedness of the identity → record maps built during the merge:
each entry's value carries exactly its key as identity, and keys are
unique. -/
def MapWF (m : List (String × Paper)) : Prop :=
  (∀ kv ∈ m, pid kv.2 = some kv.1) ∧ (m.map Prod.fst).Nodup

/- Sum of the four per-outcome counters of a batch metadata record. -/
def countsSum (m : Meta) : Nat :=
  m.downloaded_here_count + m.existed_in_subdir_count +
    m.skipped_global_duplicate_count + m.failed_download_count

structure MergeResult where
  papers : List Paper
  newlyAdded : Nat
deriving DecidableEq, Repr

def merged_papers_list (existing newFailures : List Paper) : MergeResult :=
  let m0 := buildMap existing []
  let mc := addNew newFailures m0 0
  let updated := mc.1.map Prod.snd
  let existingPlus := existing ++ newFailures.filter (fun p => pid p = none)
  ⟨appendIdless updated existingPlus, mc.2⟩

/- append_to_failed_log: pure merge plus the write decision
(download.py lines 380, 440).  `fileExists` is os.path.exists of the
ledger; `existing` is the parsed papers list (empty when the file is
missing, empty or unparseable).  The boolean is whether the ledger file is
rewritten; the papers field is the on-disk record set after the call. -/
def append_to_failed_log (fileExists : Bool) (existing newFailures : List Paper) :
    MergeResult × Bool :=
  if newFailures = [] then (⟨existing, 0⟩, false)
  else
    let r := merged_papers_list existing newFailures
    if 0 < r.newlyAdded ∨ ¬ fileExists then (r, true)
    else (⟨existing, r.newlyAdded⟩, false)

/- determine_target_subdir (retry.py lines 168-198). -/
def determine_target_subdir (env : Env) (paper : Paper) (baseDir : String) :
    String :=
  let kc : Option String × Option String :=
    match paper.original_input_json with
    | some pth =>
      match env.origQuery pth with
      | some kc0 => kc0
      | none => (none, none)
    | none => (none, none)
  let keyword := pyOr kc.1 paper.keyword_from_query
  let category :=
    pyOr kc.2 (pyOr paper.category_from_query paper.primary_category)
  let parts : List String :=
    (if truthy keyword then
       ["kw_" ++ sanitize_for_dirname (keyword.getD "") 35] else []) ++
    (if truthy category then
       ["cat_" ++ sanitize_for_dirname (category.getD "") 25] else [])
  let name :=
    if ¬ parts = [] then
      let n := joinUnderscore (parts.filter (fun s => ¬ s = ""))
      if n = "" then "retry_downloads" else n
    else "retry_downloads"
  joinPath baseDir name

/- Path.stem of an abstract path string. -/
def pathStem (p : String) : String :=
  let base : List Char := (p.data.reverse.takeWhile (fun c => ¬ c = '/')).reverse
  if String.mk base |>.endsWith ".pdf" then ⟨base.take (base.length - 4)⟩
  else ⟨base⟩

/- scan_global_output_directory (download.py lines 32-45 / retry.py
lines 33-45): rebuild the map from every .pdf file in the tree, keyed by
filename stem. -/
def scanIndex (files : List (String × Nat)) : List (String × String) :=
  files.foldl
    (fun m pv =>
      if pv.1.endsWith ".pdf" then ainsert m (pathStem pv.1) pv.1 else m) []

/- First loop of retry_failed_downloads (retry.py lines 235-252): partition
the ledger into entries failed before dispatch (missing identity, or target
directory creation failed) and submitted (paper, target dir) pairs. -/
def retryLoop1 (env : Env) (baseDir : String) (mkdirOk : String → Bool) :
    List Paper → List Paper × List (Paper × String)
  | [] => ([], [])
  | p :: ps =>
    let rest := retryLoop1 env baseDir mkdirOk ps
    if ¬ truthy p.entry_id then (p :: rest.1, rest.2)
    else
      let tgt := determine_target_subdir env p baseDir
      if ¬ mkdirOk tgt then (p :: rest.1, rest.2)
      else (rest.1, (p, tgt) :: rest.2)

structure RetryAcc where
  still : List Paper
  success : Nat
  state : WorldState
  trace : List (String × Status × String)

/- Fan-in loop of retry_failed_downloads (retry.py lines 254-274),
sequentialised in submission order.  `trace` records, per attempted
future, the identity hint, the status and the failure detail (an execution
exception is traced as FAILED with its message). -/
def retryLoop2 (env : Env) (pref ts : String)
    (pmap : List (String × Paper)) :
    List (Paper × String) → RetryAcc → RetryAcc
  | [], acc => acc
  | pt :: rest, acc =>
    let hint := pt.1.entry_id.getD ""
    match env.fault pt.1 with
    | some m =>
      let reason := "Execution exception: " ++ m
      let acc' :=
        match alookup pmap hint with
        | some orig =>
          { acc with
            still := acc.still ++
              [{ orig with retry_failed_reason := some reason,
                           last_retry_timestamp := some ts }],
            trace := acc.trace ++ [(hint, .FAILED, reason)] }
        | none => { acc with trace := acc.trace ++ [(hint, .FAILED, reason)] }
      retryLoop2 env pref ts pmap rest acc'
    | none =>
      let out := download_single_pdf env pt.1 pt.2 pref acc.state
      let acc' :=
        if out.status = .DOWNLOADED ∨ out.status = .EXISTED_SUBDIR ∨
           out.status = .EXISTED_GLOBAL then
          { acc with
            success := acc.success + 1,
            state := out.state,
            trace := acc.trace ++
              [(hint, out.status, renderDetail out.detail)] }
        else
          match alookup pmap hint with
          | some orig =>
            { acc with
              still := acc.still ++
                [{ orig with
                     retry_failed_reason := some (renderDetail out.detail),
                     last_retry_timestamp := some ts }],
              state := out.state,
              trace := acc.trace ++
                [(hint, out.status, renderDetail out.detail)] }
          | none =>
            { acc with
              state := out.state,
              trace := acc.trace ++
                [(hint, out.status, renderDetail out.detail)] }
      retryLoop2 env pref ts pmap rest acc'

/- What happens to the ledger file at the end of the retry pass. -/
inductive LedgerAction where
  | noop
  | rewrite (papers : List Paper)
  | delete
deriving DecidableEq, Repr

structure RetryOut where
  still : List Paper
  success : Nat
  action : LedgerAction
  trace : List (String × Status × String)
  state : WorldState

/- retry_failed_downloads (retry.py lines 201-300).  `ledger` is the parsed
papers list (none when the file is missing, empty or unparseable); `ts` is
the retry timestamp string. -/
def retry_failed_downloads (env : Env) (ledger : Option (List Paper))
    (baseDir pref ts : String) (mkdirOk : String → Bool)
    (enableGlobalDedup : Bool) (st : WorldState) : RetryOut :=
  match ledger with
  | none => ⟨[], 0, .noop, [], st⟩
  | some papers =>
    let st1 : WorldState :=
      if enableGlobalDedup then ⟨scanIndex st.files, st.files⟩
      else ⟨[], st.files⟩
    if papers = [] then ⟨[], 0, .noop, [], st1⟩
    else
      let pmap := papersMap papers
      let ps := retryLoop1 env baseDir mkdirOk papers
      let acc := retryLoop2 env pref ts pmap ps.2 ⟨ps.1, 0, st1, []⟩
      ⟨acc.still, acc.success,
       (if acc.still = [] then .delete else .rewrite acc.still),
       acc.trace, acc.state⟩


/- ------------------------------------------------------------------ -/
/- Generic association-list lemmas.                                    -/
/- ------------------------------------------------------------------ -/

theorem alookup_nil {α : Type} (k : String) :
    alookup ([] : List (String × α)) k = none := rfl

theorem alookup_append_right {α : Type} {m l : List (String × α)} {k : String}
    (h : alookup m k = none) : alookup (m ++ l) k = alookup l k := by
  induction m with
  | nil => simp
  | cons kv m ih =>
    by_cases hk : kv.1 = k
    · simp [alookup, hk] at h
    · simp only [alookup, hk, if_false, List.cons_append] at h ⊢
      exact ih h

theorem alookup_append_left {α : Type} {m : List (String × α)} {k : String}
    {v : α} (h : alookup m k = some v) (l : List (String × α)) :
    alookup (m ++ l) k = some v := by
  induction m with
  | nil => simp [alookup] at h
  | cons kv m ih =>
    by_cases hk : kv.1 = k
    · simp only [alookup, hk, if_true] at h
      simp [alookup, hk, h]
    · simp only [alookup, hk, if_false] at h
      simp only [List.cons_append, alookup, hk, if_false]
      exact ih h

theorem alookup_eq_none_iff {α : Type} (m : List (String × α)) (k : String) :
    alookup m k = none ↔ k ∉ m.map Prod.fst := by
  induction m with
  | nil => simp [alookup]
  | cons kv m ih =>
    by_cases hk : kv.1 = k
    · simp [alookup, hk]
    · simp only [alookup, hk, if_false, List.map_cons, List.mem_cons]
      rw [ih]
      constructor
      · intro h hmem
        rcases hmem with h1 | h2
        · exact hk h1.symm
        · exact h h2
      · intro h hmem
        exact h (Or.inr hmem)

theorem alookup_isSome_iff {α : Type} (m : List (String × α)) (k : String) :
    (alookup m k).isSome ↔ k ∈ m.map Prod.fst := by
  rw [Option.isSome_iff_ne_none, Ne, alookup_eq_none_iff, not_not]

theorem alookup_mem {α : Type} {m : List (String × α)} {k : String} {v : α}
    (h : alookup m k = some v) : (k, v) ∈ m := by
  induction m with
  | nil => simp [alookup] at h
  | cons kv m ih =>
    by_cases hk : kv.1 = k
    · simp only [alookup, hk, if_true, Option.some.injEq] at h
      subst h
      cases kv with
      | mk a b =>
        simp only at hk
        subst hk
        exact List.mem_cons_self _ _
    · simp only [alookup, hk, if_false] at h
      exact List.mem_cons_of_mem _ (ih h)

theorem alookup_map_replace_self {α : Type} (m : List (String × α))
    (k : String) (v : α) (h : (alookup m k).isSome) :
    alookup (m.map (fun kv => if kv.1 = k then (k, v) else kv)) k = some v := by
  induction m with
  | nil => simp [alookup] at h
  | cons kv m ih =>
    by_cases hk : kv.1 = k
    · simp [alookup, hk]
    · simp only [alookup, hk, if_false] at h
      simp only [List.map_cons, if_neg hk, alookup, hk, if_false]
      exact ih h

theorem alookup_map_replace_ne {α : Type} (m : List (String × α))
    (k k' : String) (v : α) (hne : ¬ k' = k) :
    alookup (m.map (fun kv => if kv.1 = k then (k, v) else kv)) k' =
      alookup m k' := by
  have hne' : ¬ k = k' := fun hc => hne hc.symm
  induction m with
  | nil => simp
  | cons kv m ih =>
    by_cases hk : kv.1 = k
    · simp only [List.map_cons, if_pos hk, alookup, hne', if_false]
      rw [if_neg (by rw [hk]; exact hne')]
      exact ih
    · simp only [List.map_cons, if_neg hk, alookup]
      by_cases hk' : kv.1 = k'
      · simp [hk']
      · rw [if_neg hk', if_neg hk']
        exact ih

theorem alookup_ainsert_self {α : Type} (m : List (String × α)) (k : String)
    (v : α) : alookup (ainsert m k v) k = some v := by
  unfold ainsert
  by_cases h : (alookup m k).isSome
  · rw [if_pos h]
    exact alookup_map_replace_self m k v h
  · rw [if_neg h]
    rw [Option.not_isSome_iff_eq_none] at h
    rw [alookup_append_right h]
    simp [alookup]

theorem alookup_ainsert_ne {α : Type} (m : List (String × α)) (k k' : String)
    (v : α) (hne : ¬ k' = k) :
    alookup (ainsert m k v) k' = alookup m k' := by
  unfold ainsert
  by_cases h : (alookup m k).isSome
  · rw [if_pos h]
    exact alookup_map_replace_ne m k k' v hne
  · rw [if_neg h]
    rcases hm : alookup m k' with _ | w
    · rw [alookup_append_right hm]
      have hne' : ¬ k = k' := fun hc => hne hc.symm
      simp [alookup, hne']
    · exact alookup_append_left hm _

theorem ainsert_keys {α : Type} (m : List (String × α)) (k : String) (v : α) :
    (ainsert m k v).map Prod.fst =
      if (alookup m k).isSome then m.map Prod.fst
      else m.map Prod.fst ++ [k] := by
  unfold ainsert
  by_cases h : (alookup m k).isSome
  · rw [if_pos h, if_pos h, List.map_map]
    apply List.map_congr_left
    intro kv _
    by_cases hk : kv.1 = k
    · simp [hk]
    · simp [hk]
  · rw [if_neg h, if_neg h]
    simp

theorem ainsert_keys_nodup {α : Type} (m : List (String × α)) (k : String)
    (v : α) (h : (m.map Prod.fst).Nodup) :
    ((ainsert m k v).map Prod.fst).Nodup := by
  rw [ainsert_keys]
  by_cases hs : (alookup m k).isSome
  · simp [hs, h]
  · simp only [hs, if_false]
    rw [Option.not_isSome_iff_eq_none] at hs
    have hk : k ∉ m.map Prod.fst := (alookup_eq_none_iff m k).mp hs
    simp [List.nodup_append, h, hk]

theorem ainsert_of_none {α : Type} (m : List (String × α)) (k : String)
    (v : α) (h : alookup m k = none) : ainsert m k v = m ++ [(k, v)] := by
  unfold ainsert
  rw [if_neg (by simp [h])]


/- ------------------------------------------------------------------ -/
/- Speed prober and URL resolution (C6, C8).                           -/
/- ------------------------------------------------------------------ -/

theorem string_append_ne_empty (a b : String) (ha : ¬ a = "") :
    ¬ (a ++ b) = "" := by
  intro h
  apply ha
  have hd := congrArg String.data h
  rw [String.data_append] at hd
  have h0 : a.data = [] := (List.append_eq_nil.mp hd).1
  cases a with
  | mk d =>
    simp only at h0
    rw [h0]

theorem mirrorUrl_ne_empty (eid : String) : ¬ mirrorUrl eid = "" :=
  string_append_ne_empty _ _ (by decide)

theorem selectMin_two (n1 u1 n2 u2 : String) (s1 s2 : WithTop ℚ) :
    selectMin [(n1, u1, s1), (n2, u2, s2)] (none, ⊤) =
      if s1 < ⊤ then
        (if s2 < s1 then (some (n2, u2), s2) else (some (n1, u1), s1))
      else
        (if s2 < ⊤ then (some (n2, u2), s2) else (none, ⊤)) := by
  by_cases h1 : s1 < (⊤ : WithTop ℚ)
  · by_cases h2 : s2 < s1
    · simp [selectMin, h1, h2]
    · simp [selectMin, h1, h2]
  · by_cases h2 : s2 < (⊤ : WithTop ℚ)
    · simp [selectMin, h1, h2]
    · simp [selectMin, h1, h2]

theorem choose_best_two (eid pu : String) (measure : String → WithTop ℚ)
    (hne : ¬ pu = "") (hnm : ¬ pu = mirrorUrl eid) :
    choose_best_download_url eid (some pu) measure =
      if measure pu < ⊤ then
        (if measure (mirrorUrl eid) < measure pu then
           (some (mirrorUrl eid), true)
         else (some pu, true))
      else
        (if measure (mirrorUrl eid) < ⊤ then (some (mirrorUrl eid), true)
         else (some pu, true)) := by
  have hme := mirrorUrl_ne_empty eid
  have hnm' : ¬ (some pu : Option String) = some (mirrorUrl eid) := by
    simp [hnm]
  have htr : truthy (some pu) = true := by simp [truthy, hne]
  simp only [choose_best_download_url, htr, if_true, Option.getD_some,
    hme, hnm', not_false_iff, and_self, List.singleton_append,
    List.map_cons, List.map_nil]
  rw [if_neg (by simp), if_neg (by simp), selectMin_two]
  by_cases h1 : measure pu < (⊤ : WithTop ℚ)
  · rw [if_pos h1, if_pos h1]
    by_cases h2 : measure (mirrorUrl eid) < measure pu
    · rw [if_pos h2, if_pos h2]
      have hnt : ¬ measure (mirrorUrl eid) = ⊤ :=
        ne_top_of_lt (lt_of_lt_of_le h2 le_top)
      simp [hnt]
    · rw [if_neg h2, if_neg h2]
      have hnt : ¬ measure pu = ⊤ := ne_top_of_lt h1
      simp [hnt]
  · rw [if_neg h1, if_neg h1]
    by_cases h2 : measure (mirrorUrl eid) < (⊤ : WithTop ℚ)
    · rw [if_pos h2, if_pos h2]
      have hnt : ¬ measure (mirrorUrl eid) = ⊤ := ne_top_of_lt h2
      simp [hnt]
    · rw [if_neg h2, if_neg h2]

theorem choose_best_single_mirror (eid : String) (primary : Option String)
    (measure : String → WithTop ℚ) (hf : truthy primary = false) :
    choose_best_download_url eid primary measure =
      (some (mirrorUrl eid), false) := by
  have hne : ¬ primary = some (mirrorUrl eid) := by
    cases primary with
    | none => simp
    | some s =>
      intro hc
      rw [Option.some.injEq] at hc
      subst hc
      simp [truthy, mirrorUrl_ne_empty eid] at hf
  simp [choose_best_download_url, hf, mirrorUrl_ne_empty eid, hne]

theorem choose_best_single_primary (eid pu : String)
    (measure : String → WithTop ℚ) (hne : ¬ pu = "")
    (hm : pu = mirrorUrl eid) :
    choose_best_download_url eid (some pu) measure = (some pu, false) := by
  subst hm
  simp [choose_best_download_url, truthy, mirrorUrl_ne_empty eid]

/-- C6: with two candidates, `choose_best_download_url` returns the
candidate with minimum measured elapsed time (the primary on ties); when
every candidate measures +infinity it falls back to the primary URL when
present and to the mirror URL otherwise; and it never returns none when a
candidate exists (which is always). -/
theorem claim_C6_choose_best_min (eid : String) (primary : Option String)
    (measure : String → WithTop ℚ) :
    (∀ pu, primary = some pu → ¬ pu = "" → ¬ pu = mirrorUrl eid →
      ((measure pu ≤ measure (mirrorUrl eid) ∧ ¬ measure pu = ⊤ →
         (choose_best_download_url eid primary measure).1 = some pu) ∧
       (measure (mirrorUrl eid) < measure pu →
         (choose_best_download_url eid primary measure).1 =
           some (mirrorUrl eid)) ∧
       (measure pu = ⊤ ∧ measure (mirrorUrl eid) = ⊤ →
         (choose_best_download_url eid primary measure).1 = some pu))) ∧
    (truthy primary = false →
      (choose_best_download_url eid primary measure).1 =
        some (mirrorUrl eid)) ∧
    ¬ (choose_best_download_url eid primary measure).1 = none := by
  refine ⟨?_, ?_, ?_⟩
  · intro pu hp hne hnm
    subst hp
    rw [choose_best_two eid pu measure hne hnm]
    refine ⟨?_, ?_, ?_⟩
    · rintro ⟨hle, hnt⟩
      have h1 : measure pu < ⊤ := lt_top_iff_ne_top.mpr hnt
      rw [if_pos h1, if_neg (not_lt.mpr hle)]
    · intro hlt
      by_cases h1 : measure pu < (⊤ : WithTop ℚ)
      · rw [if_pos h1, if_pos hlt]
      · rw [if_neg h1]
        have ht : measure pu = ⊤ := by
          rcases lt_or_eq_of_le (le_top (a := measure pu)) with hc | hc
          · exact absurd hc h1
          · exact hc
        rw [if_pos (ht ▸ hlt)]
    · rintro ⟨h1, h2⟩
      rw [if_neg (by rw [h1]; exact lt_irrefl _),
          if_neg (by rw [h2]; exact lt_irrefl _)]
  · intro hf
    rw [choose_best_single_mirror eid primary measure hf]
  · by_cases hf : truthy primary = false
    · rw [choose_best_single_mirror eid primary measure hf]
      simp
    · have ht : truthy primary = true := by
        cases h : truthy primary
        · exact absurd h hf
        · rfl
      rcases primary with _ | pu
      · simp [truthy] at ht
      · have hne : ¬ pu = "" := by
          intro hc
          rw [hc] at ht
          simp [truthy] at ht
        by_cases hm : pu = mirrorUrl eid
        · rw [choose_best_single_primary eid pu measure hne hm]
          simp
        · rw [choose_best_two eid pu measure hne hm]
          by_cases h1 : measure pu < (⊤ : WithTop ℚ)
          · rw [if_pos h1]
            by_cases h2 : measure (mirrorUrl eid) < measure pu
            · rw [if_pos h2]; simp
            · rw [if_neg h2]; simp
          · rw [if_neg h1]
            by_cases h2 : measure (mirrorUrl eid) < (⊤ : WithTop ℚ)
            · rw [if_pos h2]; simp
            · rw [if_neg h2]; simp

/-- Witness for C6 at a concrete input: the primary URL probes at +infinity
and the mirror probes at 1/5 s, so the mirror URL is returned. -/
theorem claim_C6_witness :
    (choose_best_download_url "1234.5678"
      (some "https://arxiv.org/pdf/1234.5678")
      (fun u => if u = "https://arxiv.org/pdf/1234.5678" then ⊤
                else ((1 : ℚ) / 5 : ℚ))).1 =
      some (mirrorUrl "1234.5678") := by
  have h := (claim_C6_choose_best_min "1234.5678"
    (some "https://arxiv.org/pdf/1234.5678")
    (fun u => if u = "https://arxiv.org/pdf/1234.5678" then ⊤
              else ((1 : ℚ) / 5 : ℚ))).1
    "https://arxiv.org/pdf/1234.5678" rfl (by decide) (by decide)
  apply h.2.1
  rw [show mirrorUrl "1234.5678" = "https://export.arxiv.org/pdf/1234.5678"
        from rfl]
  rw [if_neg (by decide), if_pos rfl]
  exact WithTop.coe_lt_top _

theorem truthy_eq_true_iff (o : Option String) :
    truthy o = true ↔ ∃ s, o = some s ∧ ¬ s = "" := by
  cases o with
  | none => simp [truthy]
  | some s =>
    by_cases hs : s = ""
    · simp [truthy, hs]
    · simp [truthy, hs]

theorem choose_best_some (eid : String) (primary : Option String)
    (measure : String → WithTop ℚ) :
    ∃ u, (choose_best_download_url eid primary measure).1 = some u ∧
      ¬ u = "" := by
  by_cases hf : truthy primary = false
  · exact ⟨mirrorUrl eid,
      by rw [choose_best_single_mirror eid primary measure hf],
      mirrorUrl_ne_empty eid⟩
  · have ht : truthy primary = true := by
      cases h : truthy primary
      · exact absurd h hf
      · rfl
    rcases (truthy_eq_true_iff primary).mp ht with ⟨pu, hp, hne⟩
    subst hp
    by_cases hm : pu = mirrorUrl eid
    · exact ⟨pu, by rw [choose_best_single_primary eid pu measure hne hm], hne⟩
    · rw [choose_best_two eid pu measure hne hm]
      by_cases h1 : measure pu < (⊤ : WithTop ℚ)
      · rw [if_pos h1]
        by_cases h2 : measure (mirrorUrl eid) < measure pu
        · rw [if_pos h2]; exact ⟨_, rfl, mirrorUrl_ne_empty eid⟩
        · rw [if_neg h2]; exact ⟨_, rfl, hne⟩
      · rw [if_neg h1]
        by_cases h2 : measure (mirrorUrl eid) < (⊤ : WithTop ℚ)
        · rw [if_pos h2]; exact ⟨_, rfl, mirrorUrl_ne_empty eid⟩
        · rw [if_neg h2]; exact ⟨_, rfl, hne⟩

theorem resolve_some (pref eid : String) (primary : Option String)
    (measure : String → WithTop ℚ) :
    ∃ u, (resolve_download_url pref eid primary measure).1 = some u ∧
      ¬ u = "" := by
  unfold resolve_download_url
  by_cases h1 : pref = "primary"
  · rw [if_pos h1]
    by_cases ht : truthy primary = true
    · rcases (truthy_eq_true_iff primary).mp ht with ⟨pu, hp, hne⟩
      rw [if_pos ht, hp]
      exact ⟨pu, rfl, hne⟩
    · rw [if_neg ht]
      exact ⟨_, rfl, mirrorUrl_ne_empty eid⟩
  · rw [if_neg h1]
    by_cases h2 : pref = "export"
    · rw [if_pos h2]
      exact ⟨_, rfl, mirrorUrl_ne_empty eid⟩
    · rw [if_neg h2]
      by_cases h3 : pref = "fastest"
      · rw [if_pos h3]
        exact choose_best_some eid primary measure
      · rw [if_neg h3]
        by_cases ht : truthy primary = true
        · rcases (truthy_eq_true_iff primary).mp ht with ⟨pu, hp, hne⟩
          rw [if_pos ht, hp]
          exact ⟨pu, rfl, hne⟩
        · rw [if_neg ht]
          exact ⟨_, rfl, mirrorUrl_ne_empty eid⟩

theorem download_noUrl_unreachable (env : Env) (paper : Paper)
    (subDir pref : String) (st : WorldState)
    (hid : truthy paper.entry_id = true) :
    ∀ e t, ¬ (download_single_pdf env paper subDir pref st).detail =
      Detail.noUrl e t := by
  intro e t
  simp only [download_single_pdf, hid, not_true, if_false]
  split
  · split <;> simp
  · split
    · simp
    · split
      · next hnt =>
          exfalso
          rcases resolve_some pref (paper.entry_id.getD "") paper.pdf_url
            env.measure with ⟨u, hu, hne⟩
          rw [hu] at hnt
          simp [truthy, hne] at hnt
      · split <;> simp

/-- C8: for a record with non-empty identity, URL resolution always yields a
non-null, non-empty URL under every source policy; an unrecognized policy
behaves exactly like the `primary` policy; and the "no URL resolves" FAILED
branch of the fetch worker is unreachable for identity-bearing records. -/
theorem claim_C8_url_resolution_total (pref eid : String)
    (primary : Option String) (measure : String → WithTop ℚ)
    (hid : ¬ eid = "") :
    (∃ u, (resolve_download_url pref eid primary measure).1 = some u ∧
      ¬ u = "") ∧
    (¬ pref = "primary" → ¬ pref = "export" → ¬ pref = "fastest" →
      resolve_download_url pref eid primary measure =
        resolve_download_url "primary" eid primary measure) ∧
    (∀ (env : Env) (paper : Paper) (subDir : String) (st : WorldState),
      truthy paper.entry_id = true →
      ∀ e t, ¬ (download_single_pdf env paper subDir pref st).detail =
        Detail.noUrl e t) := by
  refine ⟨resolve_some pref eid primary measure, ?_, ?_⟩
  · intro h1 h2 h3
    unfold resolve_download_url
    rw [if_neg h1, if_neg h2, if_neg h3, if_pos rfl]
  · intro env paper subDir st ht e t
    exact download_noUrl_unreachable env paper subDir pref st ht e t

/-- Witness for C8 at a concrete input: the unrecognized policy "mystery"
resolves like "primary", and a concrete fetch under it never reports the
no-URL failure. -/
theorem claim_C8_witness :
    resolve_download_url "mystery" "x" none (fun _ => ⊤) =
      resolve_download_url "primary" "x" none (fun _ => ⊤) ∧
    ¬ (download_single_pdf
        ⟨fun _ _ => .toolMissing, fun _ => ⊤, fun _ => none, fun _ => none⟩
        { entry_id := some "x" } "d" "mystery" ⟨[], []⟩).detail =
      Detail.noUrl "x" "UnknownTitle" := by
  have h := claim_C8_url_resolution_total "mystery" "x" none (fun _ => ⊤)
    (by decide)
  exact ⟨h.2.1 (by decide) (by decide) (by decide),
    h.2.2 ⟨fun _ _ => .toolMissing, fun _ => ⊤, fun _ => none, fun _ => none⟩
      { entry_id := some "x" } "d" ⟨[], []⟩ (by decide) "x" "UnknownTitle"⟩


/- ------------------------------------------------------------------ -/
/- Partition naming (C5).                                              -/
/- ------------------------------------------------------------------ -/

theorem stripTs_append (stem : String)
    (c1 c2 c3 c4 c5 c6 c7 c8 d1 d2 d3 d4 d5 d6 : Char)
    (h1 : c1.isDigit = true) (h2 : c2.isDigit = true)
    (h3 : c3.isDigit = true) (h4 : c4.isDigit = true)
    (h5 : c5.isDigit = true) (h6 : c6.isDigit = true)
    (h7 : c7.isDigit = true) (h8 : c8.isDigit = true)
    (g1 : d1.isDigit = true) (g2 : d2.isDigit = true)
    (g3 : d3.isDigit = true) (g4 : d4.isDigit = true)
    (g5 : d5.isDigit = true) (g6 : d6.isDigit = true) :
    stripTimestampSuffix (stem ++
      ⟨['_', c1, c2, c3, c4, c5, c6, c7, c8, '_', d1, d2, d3, d4, d5, d6]⟩) =
      stem := by
  unfold stripTimestampSuffix
  have hdata : (stem ++
      (⟨['_', c1, c2, c3, c4, c5, c6, c7, c8, '_', d1, d2, d3, d4, d5, d6]⟩ :
        String)).data =
      stem.data ++ ['_', c1, c2, c3, c4, c5, c6, c7, c8, '_', d1, d2, d3, d4,
        d5, d6] := String.data_append _ _
  rw [hdata, List.reverse_append]
  rw [show (['_', c1, c2, c3, c4, c5, c6, c7, c8, '_', d1, d2, d3, d4, d5, d6] :
      List Char).reverse =
      [d6, d5, d4, d3, d2, d1, '_', c8, c7, c6, c5, c4, c3, c2, c1, '_'] from
      rfl]
  rw [show ([d6, d5, d4, d3, d2, d1, '_', c8, c7, c6, c5, c4, c3, c2, c1, '_'] ++
      stem.data.reverse : List Char) =
      d6 :: d5 :: d4 :: d3 :: d2 :: d1 :: '_' :: c8 :: c7 :: c6 :: c5 :: c4 ::
        c3 :: c2 :: c1 :: '_' :: stem.data.reverse from rfl]
  rw [if_pos (by
    simp [revTsMatch, h1, h2, h3, h4, h5, h6, h7, h8, g1, g2, g3, g4, g5, g6])]
  rw [show (d6 :: d5 :: d4 :: d3 :: d2 :: d1 :: '_' :: c8 :: c7 :: c6 :: c5 ::
      c4 :: c3 :: c2 :: c1 :: '_' :: stem.data.reverse : List Char).drop 16 =
      stem.data.reverse from rfl]
  rw [List.reverse_reverse]

theorem fallbackDirName_ne_empty (stem : String) :
    ¬ fallbackDirName stem = "" := by
  unfold fallbackDirName
  by_cases h : sanitize_for_dirname (stripTimestampSuffix stem) 60 = ""
  · simp [h]
  · simp [h]

theorem pdf_output_subdir_name_empty_facets (stem : String) :
    pdf_output_subdir_name "" "" stem = fallbackDirName stem := by
  unfold pdf_output_subdir_name
  simp [fallbackDirName_ne_empty stem]

theorem stripTs_no_match (stem : String)
    (h : revTsMatch stem.data.reverse = false) :
    stripTimestampSuffix stem = stem := by
  unfold stripTimestampSuffix
  simp [h]


theorem joinUnderscore_ne_empty (a : String) (l : List String)
    (ha : ¬ a = "") : ¬ joinUnderscore (a :: l) = "" := by
  cases l with
  | nil => exact ha
  | cons b r =>
    exact string_append_ne_empty _ _ (string_append_ne_empty _ _ ha)

theorem pdf_output_subdir_name_facets (kw cat s1 s2 : String)
    (h : ¬ kw = "" ∨ ¬ cat = "") :
    pdf_output_subdir_name kw cat s1 = pdf_output_subdir_name kw cat s2 := by
  have hkw : ¬ ("kw_" ++ sanitize_for_dirname kw 35) = "" :=
    string_append_ne_empty _ _ (by decide)
  have hct : ¬ ("cat_" ++ sanitize_for_dirname cat 25) = "" :=
    string_append_ne_empty _ _ (by decide)
  unfold pdf_output_subdir_name
  by_cases hk : kw = ""
  · have hc : ¬ cat = "" := by
      rcases h with h | h
      · exact absurd hk h
      · exact h
    simp [hk, hc, hct, joinUnderscore]
  · by_cases hc : cat = ""
    · simp [hk, hc, hkw, joinUnderscore]
    · have hjoin : ¬ joinUnderscore
          (("kw_" ++ sanitize_for_dirname kw 35) ::
            ("cat_" ++ sanitize_for_dirname cat 25) :: []) = "" :=
        joinUnderscore_ne_empty _ _ hkw
      simp [hk, hc, hkw, hct, hjoin]


/-- C5: partition naming is deterministic and follows the fallback chain:
with at least one non-empty facet the name does not depend on the batch
filename, so the same (keyword, category) pair always yields the same
subdirectory name; with both facets empty the name is derived from the
batch filename stem with a trailing timestamp suffix matching the fixed
pattern _\d{8}_\d{6}$ stripped; and when that sanitizes to empty the
fixed constant name "unknown_query_parameters" is used. -/
theorem claim_C5_partition_name :
    (∀ kw cat s1 s2 : String, ¬ kw = "" ∨ ¬ cat = "" →
      pdf_output_subdir_name kw cat s1 = pdf_output_subdir_name kw cat s2) ∧
    (∀ (stem : String) (c1 c2 c3 c4 c5 c6 c7 c8 d1 d2 d3 d4 d5 d6 : Char),
      c1.isDigit = true → c2.isDigit = true → c3.isDigit = true →
      c4.isDigit = true → c5.isDigit = true → c6.isDigit = true →
      c7.isDigit = true → c8.isDigit = true → d1.isDigit = true →
      d2.isDigit = true → d3.isDigit = true → d4.isDigit = true →
      d5.isDigit = true → d6.isDigit = true →
      pdf_output_subdir_name "" "" (stem ++
        ⟨['_', c1, c2, c3, c4, c5, c6, c7, c8, '_',
          d1, d2, d3, d4, d5, d6]⟩) =
        (if sanitize_for_dirname stem 60 = "" then "unknown_query_parameters"
         else sanitize_for_dirname stem 60)) ∧
    (∀ stem : String, revTsMatch stem.data.reverse = false →
      pdf_output_subdir_name "" "" stem =
        (if sanitize_for_dirname stem 60 = "" then "unknown_query_parameters"
         else sanitize_for_dirname stem 60)) := by
  refine ⟨pdf_output_subdir_name_facets, ?_, ?_⟩
  · intro stem c1 c2 c3 c4 c5 c6 c7 c8 d1 d2 d3 d4 d5 d6 h1 h2 h3 h4 h5 h6
      h7 h8 g1 g2 g3 g4 g5 g6
    rw [pdf_output_subdir_name_empty_facets]
    unfold fallbackDirName
    rw [stripTs_append stem c1 c2 c3 c4 c5 c6 c7 c8 d1 d2 d3 d4 d5 d6
      h1 h2 h3 h4 h5 h6 h7 h8 g1 g2 g3 g4 g5 g6]
  · intro stem h
    rw [pdf_output_subdir_name_empty_facets]
    unfold fallbackDirName
    rw [stripTs_no_match stem h]

/-- Witness for C5 at concrete inputs: a non-empty keyword makes the name
independent of the batch filename; the stem "batch_20240101_123456" has its
timestamp suffix stripped; a stem with no timestamp suffix is kept. -/
theorem claim_C5_witness :
    pdf_output_subdir_name "q" "" "a" = pdf_output_subdir_name "q" "" "b" ∧
    pdf_output_subdir_name "" ""
        ("batch" ++ ⟨['_', '2', '0', '2', '4', '0', '1', '0', '1', '_',
          '1', '2', '3', '4', '5', '6']⟩) =
      (if sanitize_for_dirname "batch" 60 = "" then "unknown_query_parameters"
       else sanitize_for_dirname "batch" 60) ∧
    pdf_output_subdir_name "" "" "plain" =
      (if sanitize_for_dirname "plain" 60 = "" then "unknown_query_parameters"
       else sanitize_for_dirname "plain" 60) :=
  ⟨claim_C5_partition_name.1 "q" "" "a" "b" (Or.inl (by decide)),
   claim_C5_partition_name.2.1 "batch" '2' '0' '2' '4' '0' '1' '0' '1'
     '1' '2' '3' '4' '5' '6' (by decide) (by decide) (by decide) (by decide)
     (by decide) (by decide) (by decide) (by decide) (by decide) (by decide)
     (by decide) (by decide) (by decide) (by decide),
   claim_C5_partition_name.2.2 "plain" (by decide)⟩

/- ------------------------------------------------------------------ -/
/- Fetch-worker dedup order and index invariants (C1, C10).            -/
/- ------------------------------------------------------------------ -/

theorem download_index_cases (env : Env) (paper : Paper)
    (subDir pref : String) (st : WorldState) :
    (download_single_pdf env paper subDir pref st).state.globalIndex =
      st.globalIndex ∨
    (alookup st.globalIndex (sanitize_filename (paper.entry_id.getD "")) =
      none ∧
     (download_single_pdf env paper subDir pref st).state.globalIndex =
       ainsert st.globalIndex (sanitize_filename (paper.entry_id.getD ""))
         (targetPath subDir (paper.entry_id.getD ""))) := by
  by_cases hid : truthy paper.entry_id = true
  · simp only [download_single_pdf, hid, not_true, if_false]
    split
    · next gp heq =>
        split
        · left; rfl
        · left; rfl
    · next heq =>
        have hnone : alookup st.globalIndex
            (sanitize_filename (paper.entry_id.getD "")) = none := by
          by_cases hnil : st.globalIndex = []
          · rw [hnil]; rfl
          · rw [if_neg hnil] at heq; exact heq
        split
        · right; exact ⟨hnone, rfl⟩
        · split
          · left; rfl
          · split
            · right; exact ⟨hnone, rfl⟩
            · left; rfl
            · left; rfl
            · left; rfl
            · left; rfl
  · simp only [download_single_pdf, hid]
    left
    simp [hid]


/-- C1: for a record with a non-empty identity the fetch worker checks, in
order: (a) a global-index entry at a path other than the target yields
EXISTED_GLOBAL with the state untouched; (b) a global-index entry at the
target path yields EXISTED_SUBDIR with the state untouched; (c) otherwise
an existing non-empty file at the exact target path yields EXISTED_SUBDIR
and records the identity-to-path entry in the global index; in all three
cases no network call is made and no file is created. -/
theorem claim_C1_fetch_dedup_order (env : Env) (paper : Paper)
    (subDir pref : String) (st : WorldState)
    (hid : truthy paper.entry_id = true) :
    (∀ gp, alookup st.globalIndex
        (sanitize_filename (paper.entry_id.getD "")) = some gp →
      ¬ gp = targetPath subDir (paper.entry_id.getD "") →
      download_single_pdf env paper subDir pref st =
        ⟨some (paper.entry_id.getD ""), Status.EXISTED_GLOBAL,
          Detail.atPath gp, st, false⟩) ∧
    (alookup st.globalIndex (sanitize_filename (paper.entry_id.getD "")) =
        some (targetPath subDir (paper.entry_id.getD "")) →
      download_single_pdf env paper subDir pref st =
        ⟨some (paper.entry_id.getD ""), Status.EXISTED_SUBDIR,
          Detail.atPath (targetPath subDir (paper.entry_id.getD "")), st,
          false⟩) ∧
    (alookup st.globalIndex (sanitize_filename (paper.entry_id.getD "")) =
        none →
      0 < sizeAt st.files (targetPath subDir (paper.entry_id.getD "")) →
      download_single_pdf env paper subDir pref st =
        ⟨some (paper.entry_id.getD ""), Status.EXISTED_SUBDIR,
          Detail.atPath (targetPath subDir (paper.entry_id.getD "")),
          ⟨ainsert st.globalIndex (sanitize_filename (paper.entry_id.getD ""))
            (targetPath subDir (paper.entry_id.getD "")), st.files⟩,
          false⟩) := by
  refine ⟨?_, ?_, ?_⟩
  · intro gp hg hgp
    have hnil : ¬ st.globalIndex = [] := by
      intro h
      rw [h] at hg
      simp [alookup] at hg
    simp only [download_single_pdf, hid, not_true, if_false]
    rw [if_neg hnil, hg]
    simp only [if_neg hgp]
  · intro hg
    have hnil : ¬ st.globalIndex = [] := by
      intro h
      rw [h] at hg
      simp [alookup] at hg
    simp only [download_single_pdf, hid, not_true, if_false]
    rw [if_neg hnil, hg]
    simp
  · intro hg hsz
    have hnone : (if st.globalIndex = [] then none
        else alookup st.globalIndex
          (sanitize_filename (paper.entry_id.getD ""))) = none := by
      by_cases hnil : st.globalIndex = []
      · rw [if_pos hnil]
      · rw [if_neg hnil]; exact hg
    simp only [download_single_pdf, hid, not_true, if_false]
    rw [hnone]
    simp only [if_pos hsz]


/-- Witness for C1 at a concrete input: the target file d/x.pdf exists with
size 5 and the global index is empty, so the fetch returns EXISTED_SUBDIR,
records x ↦ d/x.pdf in the index, touches no file and makes no network
call. -/
theorem claim_C1_witness :
    download_single_pdf
      ⟨fun _ _ => .toolMissing, fun _ => ⊤, fun _ => none, fun _ => none⟩
      { entry_id := some "x" } "d" "export" ⟨[], [("d/x.pdf", 5)]⟩ =
      ⟨some "x", Status.EXISTED_SUBDIR, Detail.atPath "d/x.pdf",
        ⟨[("x", "d/x.pdf")], [("d/x.pdf", 5)]⟩, false⟩ := by
  have h := (claim_C1_fetch_dedup_order
    ⟨fun _ _ => .toolMissing, fun _ => ⊤, fun _ => none, fun _ => none⟩
    { entry_id := some "x" } "d" "export" ⟨[], [("d/x.pdf", 5)]⟩
    (by decide)).2.2 (by decide) (by decide)
  exact h.trans (by decide)

/-- C10: every fetch-worker invocation preserves the dedup-index
invariants: no entry is ever removed, only the mapping of the single safe
identity being processed is touched, and key uniqueness is preserved, so
each safe identity maps to at most one path. -/
theorem claim_C10_index_invariants (env : Env) (paper : Paper)
    (subDir pref : String) (st : WorldState) :
    (∀ k v, alookup st.globalIndex k = some v →
      alookup (download_single_pdf env paper subDir pref st).state.globalIndex
        k = some v) ∧
    (∀ k, ¬ k = sanitize_filename (paper.entry_id.getD "") →
      alookup (download_single_pdf env paper subDir pref st).state.globalIndex
        k = alookup st.globalIndex k) ∧
    ((st.globalIndex.map Prod.fst).Nodup →
      ((download_single_pdf env paper subDir pref
          st).state.globalIndex.map Prod.fst).Nodup) := by
  rcases download_index_cases env paper subDir pref st with he | ⟨hn, he⟩
  · rw [he]
    exact ⟨fun k v h => h, fun k _ => rfl, fun h => h⟩
  · rw [he]
    refine ⟨?_, ?_, ?_⟩
    · intro k v hk
      by_cases hks : k = sanitize_filename (paper.entry_id.getD "")
      · rw [hks, hn] at hk
        cases hk
      · rw [alookup_ainsert_ne _ _ _ _ hks]
        exact hk
    · intro k hks
      exact alookup_ainsert_ne _ _ _ _ hks
    · intro h
      exact ainsert_keys_nodup _ _ _ h

/-- Witness for C10 at a concrete input: a successful transfer of identity
y leaves the pre-existing index entry a ↦ p in place. -/
theorem claim_C10_witness :
    alookup (download_single_pdf
      ⟨fun _ _ => .success 7, fun _ => ⊤, fun _ => none, fun _ => none⟩
      { entry_id := some "y" } "d" "export"
      ⟨[("a", "p")], []⟩).state.globalIndex "a" = some "p" :=
  (claim_C10_index_invariants
    ⟨fun _ _ => .success 7, fun _ => ⊤, fun _ => none, fun _ => none⟩
    { entry_id := some "y" } "d" "export" ⟨[("a", "p")], []⟩).1
    "a" "p" (by decide)


/- ------------------------------------------------------------------ -/
/- Batch orchestrator (C4, C9).                                        -/
/- ------------------------------------------------------------------ -/

theorem runSubmitted_counts (env : Env) (pref subDir jsonPath : String)
    (pmap : List (String × Paper)) (l : List Paper) (acc : BatchAcc) :
    countsSum (runSubmitted env pref subDir jsonPath pmap l acc).meta =
      countsSum acc.meta + l.length ∧
    (runSubmitted env pref subDir jsonPath pmap l acc).meta.total_planned =
      acc.meta.total_planned := by
  induction l generalizing acc with
  | nil => simp [runSubmitted]
  | cons p ps ih =>
    cases hf : env.fault p with
    | some m =>
      cases hl : alookup pmap (p.entry_id.getD "") with
      | some orig =>
        simp only [runSubmitted, hf, hl]
        refine ⟨?_, ?_⟩
        · rw [(ih _).1]
          simp only [countsSum]
          simp
          omega
        · rw [(ih _).2]
      | none =>
        simp only [runSubmitted, hf, hl]
        refine ⟨?_, ?_⟩
        · rw [(ih _).1]
          simp only [countsSum]
          simp
          omega
        · rw [(ih _).2]
    | none =>
      cases hs : (download_single_pdf env p subDir pref acc.state).status with
      | DOWNLOADED =>
        simp only [runSubmitted, hf, hs]
        refine ⟨?_, ?_⟩
        · rw [(ih _).1]
          simp only [countsSum]
          simp
          omega
        · rw [(ih _).2]
      | EXISTED_SUBDIR =>
        simp only [runSubmitted, hf, hs]
        refine ⟨?_, ?_⟩
        · rw [(ih _).1]
          simp only [countsSum]
          simp
          omega
        · rw [(ih _).2]
      | EXISTED_GLOBAL =>
        simp only [runSubmitted, hf, hs]
        refine ⟨?_, ?_⟩
        · rw [(ih _).1]
          simp only [countsSum]
          simp
          omega
        · rw [(ih _).2]
      | FAILED =>
        cases hl : alookup pmap (p.entry_id.getD "") with
        | some orig =>
          simp only [runSubmitted, hf, hs, hl]
          refine ⟨?_, ?_⟩
          · rw [(ih _).1]
            simp only [countsSum]
            simp
            omega
          · rw [(ih _).2]
        | none =>
          simp only [runSubmitted, hf, hs, hl]
          refine ⟨?_, ?_⟩
          · rw [(ih _).1]
            simp only [countsSum]
            simp
            omega
          · rw [(ih _).2]


theorem filter_length_lt {α : Type} (l : List α) (pr : α → Bool) (x : α)
    (hx : x ∈ l) (hpx : pr x = false) :
    (l.filter pr).length < l.length := by
  induction l with
  | nil => cases hx
  | cons a l ih =>
    rcases List.mem_cons.mp hx with h | h
    · subst h
      rw [List.filter_cons_of_neg (by simp [hpx])]
      have hle := List.length_filter_le pr l
      simp only [List.length_cons]
      omega
    · by_cases ha : pr a = true
      · rw [List.filter_cons_of_pos ha]
        simp only [List.length_cons]
        have := ih h
        omega
      · rw [List.filter_cons_of_neg (by simp [ha])]
        have := ih h
        simp only [List.length_cons]
        omega

/-- C9: in the batch metadata, the four per-outcome counts sum to exactly
the number of records carrying an identity, total_planned counts every
record, and whenever some record lacks an identity the outcome counts sum
to strictly less than total_planned. -/
theorem claim_C9_meta_counts (env : Env) (papers : List Paper)
    (jsonPath baseDir keyword category jsonStem pref : String)
    (st : WorldState) (hp : ¬ papers = []) :
    ∃ M, (download_pdfs_from_json env papers jsonPath baseDir keyword
        category jsonStem true pref st).2.1 = some M ∧
      countsSum M = (papers.filter (fun p => truthy p.entry_id)).length ∧
      M.total_planned = papers.length ∧
      ((∃ p ∈ papers, truthy p.entry_id = false) →
        countsSum M < M.total_planned) := by
  unfold download_pdfs_from_json
  rw [if_neg hp, if_neg (by simp)]
  refine ⟨_, rfl, ?_, ?_, ?_⟩
  · rw [(runSubmitted_counts env pref _ jsonPath _ _ _).1]
    simp [countsSum, emptyMeta]
  · rw [(runSubmitted_counts env pref _ jsonPath _ _ _).2]
    rfl
  · rintro ⟨p, hp1, hp2⟩
    rw [(runSubmitted_counts env pref _ jsonPath _ _ _).1,
        (runSubmitted_counts env pref _ jsonPath _ _ _).2]
    have hlt := filter_length_lt papers (fun p => truthy p.entry_id) p hp1 hp2
    simp only [countsSum, emptyMeta]
    omega

theorem claim_C9_witness :
    (download_pdfs_from_json
      ⟨fun _ _ => .toolMissing, fun _ => ⊤, fun _ => none, fun _ => none⟩
      [{ entry_id := some "a" }, { title := some "no id" }] "j" "o" "" "" "b"
      true "export" ⟨[], []⟩).2.1.map countsSum = some 1 ∧
    (download_pdfs_from_json
      ⟨fun _ _ => .toolMissing, fun _ => ⊤, fun _ => none, fun _ => none⟩
      [{ entry_id := some "a" }, { title := some "no id" }] "j" "o" "" "" "b"
      true "export" ⟨[], []⟩).2.1.map Meta.total_planned = some 2 := by
  obtain ⟨M, hM, h1, h2, h3⟩ := claim_C9_meta_counts
    ⟨fun _ _ => .toolMissing, fun _ => ⊤, fun _ => none, fun _ => none⟩
    [{ entry_id := some "a" }, { title := some "no id" }] "j" "o" "" "" "b"
    "export" ⟨[], []⟩ (by decide)
  refine ⟨?_, ?_⟩
  · rw [hM, Option.map_some', h1]
    decide
  · rw [hM, Option.map_some', h2]
    rfl


theorem runSubmitted_failures (env : Env) (pref subDir jsonPath : String)
    (pmap : List (String × Paper)) (l : List Paper) (acc : BatchAcc) :
    ∀ r ∈ (runSubmitted env pref subDir jsonPath pmap l acc).failures,
      r ∈ acc.failures ∨
      ∃ k orig msg, alookup pmap k = some orig ∧
        r = mkFailureRecord orig msg jsonPath := by
  induction l generalizing acc with
  | nil =>
    intro r hr
    exact Or.inl hr
  | cons p ps ih =>
    intro r hr
    cases hf : env.fault p with
    | some m =>
      cases hl : alookup pmap (p.entry_id.getD "") with
      | some orig =>
        simp only [runSubmitted, hf, hl] at hr
        rcases ih _ r hr with h | h
        · rcases List.mem_append.mp h with h1 | h1
          · exact Or.inl h1
          · right
            rw [List.mem_singleton] at h1
            exact ⟨_, orig, _, hl, h1⟩
        · exact Or.inr h
      | none =>
        simp only [runSubmitted, hf, hl] at hr
        rcases ih _ r hr with h | h
        · exact Or.inl h
        · exact Or.inr h
    | none =>
      cases hs : (download_single_pdf env p subDir pref acc.state).status with
      | DOWNLOADED =>
        simp only [runSubmitted, hf, hs] at hr
        rcases ih _ r hr with h | h
        · exact Or.inl h
        · exact Or.inr h
      | EXISTED_SUBDIR =>
        simp only [runSubmitted, hf, hs] at hr
        rcases ih _ r hr with h | h
        · exact Or.inl h
        · exact Or.inr h
      | EXISTED_GLOBAL =>
        simp only [runSubmitted, hf, hs] at hr
        rcases ih _ r hr with h | h
        · exact Or.inl h
        · exact Or.inr h
      | FAILED =>
        cases hl : alookup pmap (p.entry_id.getD "") with
        | some orig =>
          simp only [runSubmitted, hf, hs, hl] at hr
          rcases ih _ r hr with h | h
          · rcases List.mem_append.mp h with h1 | h1
            · exact Or.inl h1
            · right
              rw [List.mem_singleton] at h1
              exact ⟨_, orig, _, hl, h1⟩
          · exact Or.inr h
        | none =>
          simp only [runSubmitted, hf, hs, hl] at hr
          rcases ih _ r hr with h | h
          · exact Or.inl h
          · exact Or.inr h

theorem papersMap_lookup_mem_aux (l : List Paper)
    (m : List (String × Paper)) (k : String) (orig : Paper)
    (h : alookup
      (l.foldl (fun m p => if truthy p.entry_id then
        ainsert m (p.entry_id.getD "") p else m) m) k = some orig) :
    orig ∈ l ∨ alookup m k = some orig := by
  induction l generalizing m with
  | nil => exact Or.inr h
  | cons p ps ih =>
    simp only [List.foldl_cons] at h
    rcases ih _ h with h1 | h1
    · exact Or.inl (List.mem_cons_of_mem _ h1)
    · by_cases ht : truthy p.entry_id = true
      · rw [if_pos ht] at h1
        by_cases hk : k = p.entry_id.getD ""
        · rw [hk, alookup_ainsert_self] at h1
          injection h1 with h1
          subst h1
          exact Or.inl (List.mem_cons_self _ _)
        · rw [alookup_ainsert_ne _ _ _ _ hk] at h1
          exact Or.inr h1
      · rw [if_neg ht] at h1
        exact Or.inr h1

theorem papersMap_lookup_mem (papers : List Paper) (k : String)
    (orig : Paper) (h : alookup (papersMap papers) k = some orig) :
    orig ∈ papers := by
  unfold papersMap at h
  rcases papersMap_lookup_mem_aux papers [] k orig h with h1 | h1
  · exact h1
  · rw [alookup_nil] at h1
    cases h1

/-- C4 (amended): under a successful directory creation, every element the
batch orchestrator returns is a failure record: a copy of an original batch
record augmented with a failure-reason string and a back-reference to the
originating batch file; this covers FAILED outcomes and uncaught per-worker
faults.  When directory creation fails, however, the orchestrator returns
the original records unaugmented. -/
theorem claim_C4_amended (env : Env) (papers : List Paper)
    (jsonPath baseDir keyword category jsonStem pref : String)
    (st : WorldState) :
    (∀ r ∈ (download_pdfs_from_json env papers jsonPath baseDir keyword
        category jsonStem true pref st).1,
      ∃ p msg, p ∈ papers ∧ r = mkFailureRecord p msg jsonPath) ∧
    (¬ papers = [] →
      (download_pdfs_from_json env papers jsonPath baseDir keyword category
        jsonStem false pref st).1 = papers) := by
  constructor
  · intro r hr
    by_cases hp : papers = []
    · subst hp
      simp [download_pdfs_from_json] at hr
    · unfold download_pdfs_from_json at hr
      rw [if_neg hp, if_neg (by simp)] at hr
      rcases runSubmitted_failures env pref _ jsonPath _ _ _ r hr with h | h
      · cases h
      · rcases h with ⟨k, orig, msg, hl, hr1⟩
        exact ⟨orig, msg, papersMap_lookup_mem papers k orig hl, hr1⟩
  · intro hp
    unfold download_pdfs_from_json
    rw [if_neg hp]
    simp

/-- Counterexample for C4 as stated: when directory creation fails, the
returned list is the raw input record, which carries no failure reason and
is not a failure record. -/
theorem claim_C4_counterexample :
    (download_pdfs_from_json
      ⟨fun _ _ => .toolMissing, fun _ => ⊤, fun _ => none, fun _ => none⟩
      [{ entry_id := some "a" }] "batch.json" "out" "" "" "b" false "export"
      ⟨[], []⟩).1 = [{ entry_id := some "a" }] ∧
    ({ entry_id := some "a" } : Paper).failure_reason = none := by
  constructor
  · decide
  · rfl

/-- Witness for the amended C4 at a concrete input: a batch with one
identity-bearing record whose transfer fails (wget missing) returns exactly
that record as a failure record. -/
theorem claim_C4_witness :
    (∃ p msg, p ∈ [({ entry_id := some "a" } : Paper)] ∧
      mkFailureRecord { entry_id := some "a" } "wget command not found"
          "batch.json" =
        mkFailureRecord p msg "batch.json") ∧
    (download_pdfs_from_json
      ⟨fun _ _ => .toolMissing, fun _ => ⊤, fun _ => none, fun _ => none⟩
      [{ entry_id := some "a" }] "batch.json" "out" "" "" "b" false "export"
      ⟨[], []⟩).1 = [{ entry_id := some "a" }] := by
  have h := claim_C4_amended
    ⟨fun _ _ => .toolMissing, fun _ => ⊤, fun _ => none, fun _ => none⟩
    [{ entry_id := some "a" }] "batch.json" "out" "" "" "b" "export" ⟨[], []⟩
  constructor
  · apply h.1
    decide
  · exact h.2 (by decide)


/- ------------------------------------------------------------------ -/
/- Retry pass (C3).                                                    -/
/- ------------------------------------------------------------------ -/

theorem pid_some_of_truthy (p : Paper) (h : truthy p.entry_id = true) :
    pid p = some (p.entry_id.getD "") := by
  cases he : p.entry_id with
  | none => rw [he] at h; simp [truthy] at h
  | some s =>
    rw [he] at h
    unfold pid
    rw [he, h]
    rfl

theorem pid_none_of_not_truthy (p : Paper) (h : truthy p.entry_id = false) :
    pid p = none := by
  unfold pid
  rw [h]
  rfl

theorem truthy_of_pid_some (p : Paper) (i : String) (h : pid p = some i) :
    truthy p.entry_id = true := by
  unfold pid at h
  cases ht : truthy p.entry_id
  · rw [ht] at h
    simp at h
  · rfl

theorem papersMap_pid_aux (l : List Paper) (m : List (String × Paper))
    (hm : ∀ k o, alookup m k = some o → pid o = some k) :
    ∀ k o, alookup (l.foldl (fun m p => if truthy p.entry_id then
      ainsert m (p.entry_id.getD "") p else m) m) k = some o →
      pid o = some k := by
  induction l generalizing m with
  | nil => exact hm
  | cons p ps ih =>
    simp only [List.foldl_cons]
    by_cases ht : truthy p.entry_id = true
    · rw [if_pos ht]
      apply ih
      intro k o hk
      by_cases hkk : k = p.entry_id.getD ""
      · rw [hkk, alookup_ainsert_self] at hk
        injection hk with hk
        subst hk
        rw [hkk]
        exact pid_some_of_truthy p ht
      · rw [alookup_ainsert_ne _ _ _ _ hkk] at hk
        exact hm k o hk
    · rw [if_neg ht]
      exact ih m hm

theorem papersMap_pid (papers : List Paper) :
    ∀ k o, alookup (papersMap papers) k = some o → pid o = some k := by
  unfold papersMap
  apply papersMap_pid_aux
  intro k o hk
  rw [alookup_nil] at hk
  cases hk

theorem papersMap_mono (l : List Paper) (m : List (String × Paper))
    (k : String) (h : (alookup m k).isSome = true) :
    (alookup (l.foldl (fun m p => if truthy p.entry_id then
      ainsert m (p.entry_id.getD "") p else m) m) k).isSome = true := by
  induction l generalizing m with
  | nil => exact h
  | cons p ps ih =>
    simp only [List.foldl_cons]
    by_cases ht : truthy p.entry_id = true
    · rw [if_pos ht]
      apply ih
      by_cases hkk : k = p.entry_id.getD ""
      · rw [hkk, alookup_ainsert_self]
        rfl
      · rw [alookup_ainsert_ne _ _ _ _ hkk]
        exact h
    · rw [if_neg ht]
      exact ih m h

theorem papersMap_hasKey_aux (l : List Paper) (m : List (String × Paper))
    (p : Paper) (hp : p ∈ l) (ht : truthy p.entry_id = true) :
    (alookup (l.foldl (fun m p => if truthy p.entry_id then
      ainsert m (p.entry_id.getD "") p else m) m)
      (p.entry_id.getD "")).isSome = true := by
  induction l generalizing m with
  | nil => cases hp
  | cons q ps ih =>
    simp only [List.foldl_cons]
    rcases List.mem_cons.mp hp with rfl | hp'
    · rw [if_pos ht]
      apply papersMap_mono
      rw [alookup_ainsert_self]
      rfl
    · exact ih _ hp'

theorem papersMap_hasKey (papers : List Paper) (p : Paper)
    (hp : p ∈ papers) (ht : truthy p.entry_id = true) :
    (alookup (papersMap papers) (p.entry_id.getD "")).isSome = true :=
  papersMap_hasKey_aux papers [] p hp ht

theorem retryLoop1_all (env : Env) (baseDir : String)
    (mkdirOk : String → Bool) (papers : List Paper)
    (hmk : ∀ d, mkdirOk d = true) :
    retryLoop1 env baseDir mkdirOk papers =
      (papers.filter (fun p => ! truthy p.entry_id),
       (papers.filter (fun p => truthy p.entry_id)).map
         (fun p => (p, determine_target_subdir env p baseDir))) := by
  induction papers with
  | nil => rfl
  | cons p ps ih =>
    unfold retryLoop1
    rw [ih]
    by_cases ht : truthy p.entry_id = true
    · rw [if_neg (by simp [ht]), if_neg (by simp [hmk])]
      simp [ht]
    · have ht' : truthy p.entry_id = false := by
        cases h : truthy p.entry_id
        · rfl
        · exact absurd h ht
      rw [if_pos (by simp [ht'])]
      simp [ht']


theorem delta_cons_iff (upd : Paper) (hint d : String) (extS : List Paper)
    (extT : List (String × Status × String))
    (hpid : pid upd = some hint)
    (hiff : ∀ i, (∃ q ∈ extS, pid q = some i) ↔
      (∃ t ∈ extT, t.1 = i ∧ t.2.1 = Status.FAILED)) :
    ∀ i, (∃ q ∈ upd :: extS, pid q = some i) ↔
      (∃ t ∈ ((hint, Status.FAILED, d) :: extT :
        List (String × Status × String)), t.1 = i ∧ t.2.1 = Status.FAILED) := by
  intro i
  constructor
  · rintro ⟨q, hq, hqi⟩
    rcases List.mem_cons.mp hq with rfl | hq'
    · rw [hpid] at hqi
      injection hqi with hqi
      exact ⟨(hint, Status.FAILED, d), List.mem_cons_self _ _, hqi, rfl⟩
    · rcases (hiff i).mp ⟨q, hq', hqi⟩ with ⟨t, ht, ht1, ht2⟩
      exact ⟨t, List.mem_cons_of_mem _ ht, ht1, ht2⟩
  · rintro ⟨t, ht, ht1, ht2⟩
    rcases List.mem_cons.mp ht with rfl | ht'
    · simp only at ht1
      exact ⟨upd, List.mem_cons_self _ _, by rw [hpid, ht1]⟩
    · rcases (hiff i).mpr ⟨t, ht', ht1, ht2⟩ with ⟨q, hq, hqi⟩
      exact ⟨q, List.mem_cons_of_mem _ hq, hqi⟩

theorem delta_skip_iff (hint d : String) (s : Status)
    (extS : List Paper) (extT : List (String × Status × String))
    (hs : ¬ s = Status.FAILED)
    (hiff : ∀ i, (∃ q ∈ extS, pid q = some i) ↔
      (∃ t ∈ extT, t.1 = i ∧ t.2.1 = Status.FAILED)) :
    ∀ i, (∃ q ∈ extS, pid q = some i) ↔
      (∃ t ∈ ((hint, s, d) :: extT : List (String × Status × String)),
        t.1 = i ∧ t.2.1 = Status.FAILED) := by
  intro i
  rw [hiff i]
  constructor
  · rintro ⟨t, ht, ht1, ht2⟩
    exact ⟨t, List.mem_cons_of_mem _ ht, ht1, ht2⟩
  · rintro ⟨t, ht, ht1, ht2⟩
    rcases List.mem_cons.mp ht with rfl | ht'
    · simp only at ht2
      exact absurd ht2 hs
    · exact ⟨t, ht', ht1, ht2⟩

theorem status_ne_failed_iff (s : Status) :
    (s = Status.DOWNLOADED ∨ s = Status.EXISTED_SUBDIR ∨
      s = Status.EXISTED_GLOBAL) ↔ ¬ s = Status.FAILED := by
  cases s <;> simp

theorem retryLoop2_delta (env : Env) (pref ts : String)
    (pmap : List (String × Paper))
    (hwf : ∀ k o, alookup pmap k = some o → pid o = some k) :
    ∀ (l : List (Paper × String)) (acc : RetryAcc),
    (∀ pt ∈ l, truthy pt.1.entry_id = true ∧
      (alookup pmap (pt.1.entry_id.getD "")).isSome = true) →
    ∃ extS extT,
      (retryLoop2 env pref ts pmap l acc).still = acc.still ++ extS ∧
      (retryLoop2 env pref ts pmap l acc).trace = acc.trace ++ extT ∧
      (∀ q ∈ extS, (∃ i, pid q = some i) ∧
        (∃ d, q.retry_failed_reason = some d) ∧
        q.last_retry_timestamp = some ts) ∧
      (∀ i, (∃ q ∈ extS, pid q = some i) ↔
        (∃ t ∈ extT, t.1 = i ∧ t.2.1 = Status.FAILED)) := by
  intro l
  induction l with
  | nil =>
    intro acc _
    refine ⟨[], [], by simp [retryLoop2], by simp [retryLoop2], by simp, ?_⟩
    intro i
    simp
  | cons pt rest ih =>
    intro acc hl
    have hhead := hl pt (List.mem_cons_self _ _)
    have hrest : ∀ x ∈ rest, truthy x.1.entry_id = true ∧
        (alookup pmap (x.1.entry_id.getD "")).isSome = true :=
      fun x hx => hl x (List.mem_cons_of_mem _ hx)
    cases hf : env.fault pt.1 with
    | some m =>
      rcases Option.isSome_iff_exists.mp hhead.2 with ⟨orig, horig⟩
      have hpid : pid orig = some (pt.1.entry_id.getD "") := hwf _ _ horig
      obtain ⟨extS, extT, h1, h2, h3, h4⟩ := ih _ hrest
      simp only [retryLoop2, hf, horig]
      refine ⟨{ orig with
          retry_failed_reason := some ("Execution exception: " ++ m),
          last_retry_timestamp := some ts } :: extS,
        (pt.1.entry_id.getD "", Status.FAILED,
          "Execution exception: " ++ m) :: extT, ?_, ?_, ?_, ?_⟩
      · rw [h1]
        simp
      · rw [h2]
        simp
      · intro q hq
        rcases List.mem_cons.mp hq with rfl | hq'
        · exact ⟨⟨_, hpid⟩, ⟨_, rfl⟩, rfl⟩
        · exact h3 q hq'
      · exact delta_cons_iff _ _ _ _ _ hpid h4
    | none =>
      cases hs : (download_single_pdf env pt.1 pt.2 pref acc.state).status with
      | FAILED =>
        rcases Option.isSome_iff_exists.mp hhead.2 with ⟨orig, horig⟩
        have hpid : pid orig = some (pt.1.entry_id.getD "") := hwf _ _ horig
        obtain ⟨extS, extT, h1, h2, h3, h4⟩ := ih _ hrest
        simp only [retryLoop2, hf, hs, horig]
        rw [if_neg (by simp)]
        refine ⟨{ orig with
            retry_failed_reason := some (renderDetail
              (download_single_pdf env pt.1 pt.2 pref acc.state).detail),
            last_retry_timestamp := some ts } :: extS,
          (pt.1.entry_id.getD "", Status.FAILED, renderDetail
            (download_single_pdf env pt.1 pt.2 pref acc.state).detail) ::
            extT, ?_, ?_, ?_, ?_⟩
        · rw [h1]
          simp
        · rw [h2]
          simp [hs]
        · intro q hq
          rcases List.mem_cons.mp hq with rfl | hq'
          · exact ⟨⟨_, hpid⟩, ⟨_, rfl⟩, rfl⟩
          · exact h3 q hq'
        · exact delta_cons_iff _ _ _ _ _ hpid h4
      | DOWNLOADED =>
        obtain ⟨extS, extT, h1, h2, h3, h4⟩ := ih _ hrest
        simp only [retryLoop2, hf, hs]
        rw [if_pos (by simp)]
        refine ⟨extS, (pt.1.entry_id.getD "", Status.DOWNLOADED,
          renderDetail (download_single_pdf env pt.1 pt.2 pref
            acc.state).detail) :: extT, ?_, ?_, h3, ?_⟩
        · rw [h1]
        · rw [h2]
          simp [hs]
        · exact delta_skip_iff _ _ _ _ _ (by simp) h4
      | EXISTED_SUBDIR =>
        obtain ⟨extS, extT, h1, h2, h3, h4⟩ := ih _ hrest
        simp only [retryLoop2, hf, hs]
        rw [if_pos (by simp)]
        refine ⟨extS, (pt.1.entry_id.getD "", Status.EXISTED_SUBDIR,
          renderDetail (download_single_pdf env pt.1 pt.2 pref
            acc.state).detail) :: extT, ?_, ?_, h3, ?_⟩
        · rw [h1]
        · rw [h2]
          simp [hs]
        · exact delta_skip_iff _ _ _ _ _ (by simp) h4
      | EXISTED_GLOBAL =>
        obtain ⟨extS, extT, h1, h2, h3, h4⟩ := ih _ hrest
        simp only [retryLoop2, hf, hs]
        rw [if_pos (by simp)]
        refine ⟨extS, (pt.1.entry_id.getD "", Status.EXISTED_GLOBAL,
          renderDetail (download_single_pdf env pt.1 pt.2 pref
            acc.state).detail) :: extT, ?_, ?_, h3, ?_⟩
        · rw [h1]
        · rw [h2]
          simp [hs]
        · exact delta_skip_iff _ _ _ _ _ (by simp) h4


/-- C3 (amended): assuming target-directory creation succeeds, the retry
pass keeps an identity in the ledger iff some re-attempt for it returned
FAILED (so identities whose re-attempt succeeds are removed), every kept
identity-bearing entry carries an updated failure reason and the retry
timestamp, entries lacking an identity are kept verbatim without updated
fields, and the ledger file is rewritten with the still-failing records or
deleted when none remain. -/
theorem claim_C3_amended (env : Env) (papers : List Paper)
    (baseDir pref ts : String) (mkdirOk : String → Bool)
    (enableGlobalDedup : Bool) (st : WorldState) (res : RetryOut)
    (hres : res = retry_failed_downloads env (some papers) baseDir pref ts
      mkdirOk enableGlobalDedup st)
    (hmk : ∀ d, mkdirOk d = true) (hp : ¬ papers = []) :
    (∀ i, (∃ q ∈ res.still, pid q = some i) ↔
      (∃ t ∈ res.trace, t.1 = i ∧ t.2.1 = Status.FAILED)) ∧
    (∀ q ∈ res.still, truthy q.entry_id = true →
      (∃ d, q.retry_failed_reason = some d) ∧
      q.last_retry_timestamp = some ts) ∧
    (∀ q ∈ res.still, truthy q.entry_id = false → q ∈ papers) ∧
    (∀ p ∈ papers, truthy p.entry_id = false → p ∈ res.still) ∧
    (res.action = LedgerAction.delete ↔ res.still = []) ∧
    (¬ res.still = [] → res.action = LedgerAction.rewrite res.still) := by
  have hsubhyp : ∀ pt ∈ (papers.filter (fun p => truthy p.entry_id)).map
      (fun p => (p, determine_target_subdir env p baseDir)),
      truthy pt.1.entry_id = true ∧
      (alookup (papersMap papers) (pt.1.entry_id.getD "")).isSome = true := by
    intro pt hpt
    rcases List.mem_map.mp hpt with ⟨p, hpmem, rfl⟩
    have hmem := List.mem_filter.mp hpmem
    exact ⟨hmem.2, papersMap_hasKey papers p hmem.1 hmem.2⟩
  obtain ⟨extS, extT, h1, h2, h3, h4⟩ :=
    retryLoop2_delta env pref ts (papersMap papers) (papersMap_pid papers)
      ((papers.filter (fun p => truthy p.entry_id)).map
        (fun p => (p, determine_target_subdir env p baseDir)))
      ⟨papers.filter (fun p => ! truthy p.entry_id), 0,
        (if enableGlobalDedup then (⟨scanIndex st.files, st.files⟩ : WorldState)
         else ⟨[], st.files⟩), []⟩ hsubhyp
  simp only at h1 h2
  have hstill : res.still =
      papers.filter (fun p => ! truthy p.entry_id) ++ extS := by
    rw [hres]
    simp only [retry_failed_downloads]
    rw [if_neg hp, retryLoop1_all env baseDir mkdirOk papers hmk]
    exact h1
  have htrace : res.trace = extT := by
    rw [hres]
    simp only [retry_failed_downloads]
    rw [if_neg hp, retryLoop1_all env baseDir mkdirOk papers hmk]
    rw [h2]
    rfl
  have haction : res.action =
      (if res.still = [] then LedgerAction.delete
       else LedgerAction.rewrite res.still) := by
    rw [hres]
    simp only [retry_failed_downloads]
    rw [if_neg hp]
  refine ⟨?_, ?_, ?_, ?_, ?_, ?_⟩
  · intro i
    rw [hstill, htrace]
    constructor
    · rintro ⟨q, hq, hqi⟩
      rcases List.mem_append.mp hq with hq' | hq'
      · exfalso
        have hmem := List.mem_filter.mp hq'
        have hfalse : truthy q.entry_id = false := by
          have := hmem.2
          cases h : truthy q.entry_id
          · rfl
          · rw [h] at this; simp at this
        rw [pid_none_of_not_truthy q hfalse] at hqi
        cases hqi
      · exact (h4 i).mp ⟨q, hq', hqi⟩
    · intro h
      rcases (h4 i).mpr h with ⟨q, hq, hqi⟩
      exact ⟨q, List.mem_append.mpr (Or.inr hq), hqi⟩
  · intro q hq ht
    rw [hstill] at hq
    rcases List.mem_append.mp hq with hq' | hq'
    · exfalso
      have hmem := List.mem_filter.mp hq'
      rw [ht] at hmem
      simp at hmem
    · exact (h3 q hq').2
  · intro q hq ht
    rw [hstill] at hq
    rcases List.mem_append.mp hq with hq' | hq'
    · exact (List.mem_filter.mp hq').1
    · exfalso
      rcases (h3 q hq').1 with ⟨i, hqi⟩
      rw [truthy_of_pid_some q i hqi] at ht
      cases ht
  · intro p hpmem ht
    rw [hstill]
    apply List.mem_append.mpr
    left
    exact List.mem_filter.mpr ⟨hpmem, by rw [ht]; rfl⟩
  · rw [haction]
    by_cases he : res.still = []
    · simp [he]
    · simp [he]
  · intro he
    rw [haction, if_neg he]

/-- Counterexample for C3 as stated: a ledger whose only entry lacks an
identity is kept by the retry pass verbatim, with no updated failure
reason and no retry timestamp, contradicting the claim that every kept
entry carries them. -/
theorem claim_C3_counterexample :
    (retry_failed_downloads
      ⟨fun _ _ => .toolMissing, fun _ => ⊤, fun _ => none, fun _ => none⟩
      (some [{ title := some "t" }]) "out" "export" "20240101_000000"
      (fun _ => true) false ⟨[], []⟩).still = [{ title := some "t" }] ∧
    ({ title := some "t" } : Paper).retry_failed_reason = none ∧
    ({ title := some "t" } : Paper).last_retry_timestamp = none := by
  refine ⟨by decide, rfl, rfl⟩

/-- Witness for the amended C3 at a concrete input: a ledger with one
identity-less entry and one identity-bearing entry whose re-attempt fails
keeps the identity-less entry verbatim. -/
theorem claim_C3_witness :
    ({ title := some "t" } : Paper) ∈
      (retry_failed_downloads
        ⟨fun _ _ => .toolMissing, fun _ => ⊤, fun _ => none, fun _ => none⟩
        (some [{ title := some "t" }, { entry_id := some "x" }]) "out"
        "export" "20240101_000000" (fun _ => true) false
        ⟨[], []⟩).still := by
  have h := claim_C3_amended
    ⟨fun _ _ => .toolMissing, fun _ => ⊤, fun _ => none, fun _ => none⟩
    [{ title := some "t" }, { entry_id := some "x" }] "out" "export"
    "20240101_000000" (fun _ => true) false ⟨[], []⟩ _ rfl (fun _ => rfl)
    (by decide)
  exact h.2.2.2.1 { title := some "t" } (by decide) (by decide)


/- ------------------------------------------------------------------ -/
/- Failure-ledger merge (C2, C7).                                      -/
/- ------------------------------------------------------------------ -/

theorem appendIdless_cons_some (acc : List Paper) (q : Paper)
    (ps : List Paper) (hq : ¬ pid q = none) :
    appendIdless acc (q :: ps) = appendIdless acc ps := by
  conv_lhs => rw [appendIdless]
  rw [if_neg hq]

theorem appendIdless_cons_covered (acc : List Paper) (q : Paper)
    (ps : List Paper) (hq : pid q = none) (hc : coversIdless acc q = true) :
    appendIdless acc (q :: ps) = appendIdless acc ps := by
  conv_lhs => rw [appendIdless]
  rw [if_pos hq, if_pos hc]

theorem appendIdless_cons_new (acc : List Paper) (q : Paper)
    (ps : List Paper) (hq : pid q = none)
    (hc : ¬ coversIdless acc q = true) :
    appendIdless acc (q :: ps) = appendIdless (acc ++ [q]) ps := by
  conv_lhs => rw [appendIdless]
  rw [if_pos hq, if_neg hc]

theorem appendIdlessExtra_cons_some (acc : List Paper) (q : Paper)
    (ps : List Paper) (hq : ¬ pid q = none) :
    appendIdlessExtra acc (q :: ps) = appendIdlessExtra acc ps := by
  conv_lhs => rw [appendIdlessExtra]
  rw [if_neg hq]

theorem appendIdlessExtra_cons_covered (acc : List Paper) (q : Paper)
    (ps : List Paper) (hq : pid q = none) (hc : coversIdless acc q = true) :
    appendIdlessExtra acc (q :: ps) = appendIdlessExtra acc ps := by
  conv_lhs => rw [appendIdlessExtra]
  rw [if_pos hq, if_pos hc]

theorem appendIdlessExtra_cons_new (acc : List Paper) (q : Paper)
    (ps : List Paper) (hq : pid q = none)
    (hc : ¬ coversIdless acc q = true) :
    appendIdlessExtra acc (q :: ps) =
      q :: appendIdlessExtra (acc ++ [q]) ps := by
  conv_lhs => rw [appendIdlessExtra]
  rw [if_pos hq, if_neg hc]

theorem appendIdless_eq_extra (xs : List Paper) : ∀ acc : List Paper,
    appendIdless acc xs = acc ++ appendIdlessExtra acc xs := by
  induction xs with
  | nil =>
    intro acc
    simp [appendIdless, appendIdlessExtra]
  | cons q ps ih =>
    intro acc
    by_cases hq : pid q = none
    · by_cases hc : coversIdless acc q = true
      · rw [appendIdless_cons_covered acc q ps hq hc,
            appendIdlessExtra_cons_covered acc q ps hq hc]
        exact ih acc
      · rw [appendIdless_cons_new acc q ps hq hc,
            appendIdlessExtra_cons_new acc q ps hq hc]
        rw [ih (acc ++ [q])]
        simp
    · rw [appendIdless_cons_some acc q ps hq,
          appendIdlessExtra_cons_some acc q ps hq]
      exact ih acc

theorem appendIdlessExtra_idless (xs : List Paper) : ∀ acc : List Paper,
    ∀ p ∈ appendIdlessExtra acc xs, pid p = none := by
  induction xs with
  | nil =>
    intro acc p hp
    simp [appendIdlessExtra] at hp
  | cons q ps ih =>
    intro acc p hp
    by_cases hq : pid q = none
    · by_cases hc : coversIdless acc q = true
      · rw [appendIdlessExtra_cons_covered acc q ps hq hc] at hp
        exact ih acc p hp
      · rw [appendIdlessExtra_cons_new acc q ps hq hc] at hp
        rcases List.mem_cons.mp hp with rfl | hp'
        · exact hq
        · exact ih (acc ++ [q]) p hp'
    · rw [appendIdlessExtra_cons_some acc q ps hq] at hp
      exact ih acc p hp

theorem appendIdless_all_some (xs : List Paper) : ∀ acc : List Paper,
    (∀ p ∈ xs, ¬ pid p = none) → appendIdless acc xs = acc := by
  induction xs with
  | nil =>
    intro acc _
    rfl
  | cons q ps ih =>
    intro acc h
    rw [appendIdless_cons_some acc q ps (h q (List.mem_cons_self _ _))]
    exact ih acc (fun p hp => h p (List.mem_cons_of_mem _ hp))

theorem appendIdless_append (xs ys : List Paper) : ∀ acc : List Paper,
    appendIdless acc (xs ++ ys) =
      appendIdless (appendIdless acc xs) ys := by
  induction xs with
  | nil =>
    intro acc
    rfl
  | cons q ps ih =>
    intro acc
    simp only [List.cons_append]
    by_cases hq : pid q = none
    · by_cases hc : coversIdless acc q = true
      · rw [appendIdless_cons_covered acc q _ hq hc,
            appendIdless_cons_covered acc q ps hq hc]
        exact ih acc
      · rw [appendIdless_cons_new acc q _ hq hc,
            appendIdless_cons_new acc q ps hq hc]
        exact ih (acc ++ [q])
    · rw [appendIdless_cons_some acc q _ hq,
          appendIdless_cons_some acc q ps hq]
      exact ih acc

theorem appendIdless_covered (xs : List Paper) : ∀ acc : List Paper,
    (∀ p ∈ xs, pid p = none → coversIdless acc p = true) →
    appendIdless acc xs = acc := by
  induction xs with
  | nil =>
    intro acc _
    rfl
  | cons q ps ih =>
    intro acc h
    by_cases hq : pid q = none
    · rw [appendIdless_cons_covered acc q ps hq
        (h q (List.mem_cons_self _ _) hq)]
      exact ih acc (fun p hp hpn => h p (List.mem_cons_of_mem _ hp) hpn)
    · rw [appendIdless_cons_some acc q ps hq]
      exact ih acc (fun p hp hpn => h p (List.mem_cons_of_mem _ hp) hpn)

theorem coversIdless_append_left (acc l : List Paper) (p : Paper)
    (h : coversIdless acc p = true) : coversIdless (acc ++ l) p = true := by
  unfold coversIdless at h ⊢
  rw [List.any_append, h]
  rfl

theorem coversIdless_self (acc : List Paper) (q : Paper)
    (hq : pid q = none) : coversIdless (acc ++ [q]) q = true := by
  unfold coversIdless
  rw [List.any_append]
  have h1 : [q].any (fun r => decide (pid r = none) &&
      decide (r.title = q.title)) = true := by
    simp [hq]
  rw [h1]
  simp

theorem appendIdless_coverage (xs : List Paper) : ∀ acc : List Paper,
    ∀ p ∈ xs, pid p = none →
      coversIdless (appendIdless acc xs) p = true := by
  induction xs with
  | nil =>
    intro acc p hp
    cases hp
  | cons q ps ih =>
    intro acc p hp hpn
    by_cases hq : pid q = none
    · by_cases hc : coversIdless acc q = true
      · rw [appendIdless_cons_covered acc q ps hq hc]
        rcases List.mem_cons.mp hp with rfl | hp'
        · rw [appendIdless_eq_extra]
          exact coversIdless_append_left _ _ _ hc
        · exact ih acc p hp' hpn
      · rw [appendIdless_cons_new acc q ps hq hc]
        rcases List.mem_cons.mp hp with rfl | hp'
        · rw [appendIdless_eq_extra]
          exact coversIdless_append_left _ _ _ (coversIdless_self acc p hpn)
        · exact ih (acc ++ [q]) p hp' hpn
    · rw [appendIdless_cons_some acc q ps hq]
      rcases List.mem_cons.mp hp with rfl | hp'
      · exact absurd hpn hq
      · exact ih acc p hp' hpn

theorem appendIdless_replay (xs : List Paper) : ∀ acc : List Paper,
    appendIdless acc (appendIdlessExtra acc xs) =
      acc ++ appendIdlessExtra acc xs := by
  induction xs with
  | nil =>
    intro acc
    simp [appendIdlessExtra, appendIdless]
  | cons q ps ih =>
    intro acc
    by_cases hq : pid q = none
    · by_cases hc : coversIdless acc q = true
      · rw [appendIdlessExtra_cons_covered acc q ps hq hc]
        exact ih acc
      · rw [appendIdlessExtra_cons_new acc q ps hq hc,
            appendIdless_cons_new acc q _ hq hc]
        rw [ih (acc ++ [q])]
        simp
    · rw [appendIdlessExtra_cons_some acc q ps hq]
      exact ih acc


theorem MapWF_nil : MapWF [] := ⟨by simp, by simp⟩

theorem MapWF_ainsert (m : List (String × Paper)) (i : String) (p : Paper)
    (hm : MapWF m) (hp : pid p = some i) : MapWF (ainsert m i p) := by
  constructor
  · intro kv hkv
    unfold ainsert at hkv
    by_cases h : (alookup m i).isSome
    · rw [if_pos h] at hkv
      rcases List.mem_map.mp hkv with ⟨kw, hkw, rfl⟩
      by_cases hk : kw.1 = i
      · simp only [if_pos hk]
        exact hp
      · simp only [if_neg hk]
        exact hm.1 kw hkw
    · rw [if_neg h] at hkv
      rcases List.mem_append.mp hkv with h1 | h1
      · exact hm.1 kv h1
      · rw [List.mem_singleton] at h1
        subst h1
        exact hp
  · exact ainsert_keys_nodup m i p hm.2

theorem MapWF_buildMap (ps : List Paper) :
    ∀ m : List (String × Paper), MapWF m → MapWF (buildMap ps m) := by
  induction ps with
  | nil =>
    intro m hm
    exact hm
  | cons p rest ih =>
    intro m hm
    cases hpid : pid p with
    | some i =>
      rw [show buildMap (p :: rest) m = buildMap rest (ainsert m i p) from by
        conv_lhs => rw [buildMap]
        rw [hpid]]
      exact ih _ (MapWF_ainsert m i p hm hpid)
    | none =>
      rw [show buildMap (p :: rest) m = buildMap rest m from by
        conv_lhs => rw [buildMap]
        rw [hpid]]
      exact ih m hm

theorem addNew_cons_some_present (ps : List Paper) (m : List (String × Paper))
    (c : Nat) (p : Paper) (i : String) (hpid : pid p = some i)
    (h : (alookup m i).isSome = true) :
    addNew (p :: ps) m c = addNew ps m c := by
  conv_lhs => rw [addNew]
  rw [hpid]
  show (if (alookup m i).isSome = true then addNew ps m c
    else addNew ps (ainsert m i p) (c + 1)) = addNew ps m c
  rw [if_pos h]

theorem addNew_cons_some_absent (ps : List Paper) (m : List (String × Paper))
    (c : Nat) (p : Paper) (i : String) (hpid : pid p = some i)
    (h : ¬ (alookup m i).isSome = true) :
    addNew (p :: ps) m c = addNew ps (ainsert m i p) (c + 1) := by
  conv_lhs => rw [addNew]
  rw [hpid]
  show (if (alookup m i).isSome = true then addNew ps m c
    else addNew ps (ainsert m i p) (c + 1)) = addNew ps (ainsert m i p) (c + 1)
  rw [if_neg h]

theorem addNew_cons_none (ps : List Paper) (m : List (String × Paper))
    (c : Nat) (p : Paper) (hpid : pid p = none) :
    addNew (p :: ps) m c = addNew ps m c := by
  conv_lhs => rw [addNew]
  rw [hpid]

theorem MapWF_addNew (ps : List Paper) :
    ∀ (m : List (String × Paper)) (c : Nat), MapWF m →
      MapWF (addNew ps m c).1 := by
  induction ps with
  | nil =>
    intro m c hm
    exact hm
  | cons p rest ih =>
    intro m c hm
    cases hpid : pid p with
    | some i =>
      by_cases h : (alookup m i).isSome = true
      · rw [addNew_cons_some_present rest m c p i hpid h]
        exact ih m c hm
      · rw [addNew_cons_some_absent rest m c p i hpid h]
        exact ih _ _ (MapWF_ainsert m i p hm hpid)
    | none =>
      rw [addNew_cons_none rest m c p hpid]
      exact ih m c hm

theorem ainsert_isSome (m : List (String × Paper)) (j i : String) (p : Paper)
    (h : (alookup m i).isSome = true) :
    (alookup (ainsert m j p) i).isSome = true := by
  by_cases hk : i = j
  · rw [hk, alookup_ainsert_self]
    rfl
  · rw [alookup_ainsert_ne _ _ _ _ hk]
    exact h

theorem addNew_mono (ps : List Paper) :
    ∀ (m : List (String × Paper)) (c : Nat) (i : String),
      (alookup m i).isSome = true →
      (alookup (addNew ps m c).1 i).isSome = true := by
  induction ps with
  | nil =>
    intro m c i h
    exact h
  | cons p rest ih =>
    intro m c i h
    cases hpid : pid p with
    | some j =>
      by_cases hj : (alookup m j).isSome = true
      · rw [addNew_cons_some_present rest m c p j hpid hj]
        exact ih m c i h
      · rw [addNew_cons_some_absent rest m c p j hpid hj]
        exact ih _ _ i (ainsert_isSome m j i p h)
    | none =>
      rw [addNew_cons_none rest m c p hpid]
      exact ih m c i h

theorem addNew_covers (ps : List Paper) :
    ∀ (m : List (String × Paper)) (c : Nat) (p : Paper), p ∈ ps →
      ∀ i, pid p = some i → (alookup (addNew ps m c).1 i).isSome = true := by
  induction ps with
  | nil =>
    intro m c p hp
    cases hp
  | cons q rest ih =>
    intro m c p hp i hpi
    cases hq : pid q with
    | some j =>
      by_cases hj : (alookup m j).isSome = true
      · rw [addNew_cons_some_present rest m c q j hq hj]
        rcases List.mem_cons.mp hp with rfl | hp'
        · rw [hpi] at hq
          injection hq with hq
          subst hq
          exact addNew_mono rest m c i hj
        · exact ih m c p hp' i hpi
      · rw [addNew_cons_some_absent rest m c q j hq hj]
        rcases List.mem_cons.mp hp with rfl | hp'
        · rw [hpi] at hq
          injection hq with hq
          subst hq
          exact addNew_mono rest _ _ i (by rw [alookup_ainsert_self]; rfl)
        · exact ih _ _ p hp' i hpi
    | none =>
      rw [addNew_cons_none rest m c q hq]
      rcases List.mem_cons.mp hp with rfl | hp'
      · rw [hpi] at hq
        cases hq
      · exact ih m c p hp' i hpi

theorem addNew_noop (ps : List Paper) :
    ∀ (m : List (String × Paper)) (c : Nat),
      (∀ p ∈ ps, ∀ i, pid p = some i → (alookup m i).isSome = true) →
      addNew ps m c = (m, c) := by
  induction ps with
  | nil =>
    intro m c _
    rfl
  | cons q rest ih =>
    intro m c h
    cases hq : pid q with
    | some j =>
      rw [addNew_cons_some_present rest m c q j hq
        (h q (List.mem_cons_self _ _) j hq)]
      exact ih m c (fun p hp i hpi => h p (List.mem_cons_of_mem _ hp) i hpi)
    | none =>
      rw [addNew_cons_none rest m c q hq]
      exact ih m c (fun p hp i hpi => h p (List.mem_cons_of_mem _ hp) i hpi)

theorem buildMap_cons_some (ps : List Paper) (m : List (String × Paper))
    (p : Paper) (i : String) (hpid : pid p = some i) :
    buildMap (p :: ps) m = buildMap ps (ainsert m i p) := by
  conv_lhs => rw [buildMap]
  rw [hpid]

theorem buildMap_cons_none (ps : List Paper) (m : List (String × Paper))
    (p : Paper) (hpid : pid p = none) :
    buildMap (p :: ps) m = buildMap ps m := by
  conv_lhs => rw [buildMap]
  rw [hpid]

theorem buildMap_append (xs ys : List Paper) :
    ∀ m : List (String × Paper),
      buildMap (xs ++ ys) m = buildMap ys (buildMap xs m) := by
  induction xs with
  | nil =>
    intro m
    rfl
  | cons p rest ih =>
    intro m
    simp only [List.cons_append]
    cases hpid : pid p with
    | some i =>
      rw [buildMap_cons_some _ m p i hpid, buildMap_cons_some rest m p i hpid]
      exact ih _
    | none =>
      rw [buildMap_cons_none _ m p hpid, buildMap_cons_none rest m p hpid]
      exact ih m

theorem buildMap_idless (xs : List Paper) (m : List (String × Paper))
    (h : ∀ p ∈ xs, pid p = none) : buildMap xs m = m := by
  induction xs with
  | nil => rfl
  | cons p rest ih =>
    rw [buildMap_cons_none rest m p (h p (List.mem_cons_self _ _))]
    exact ih (fun q hq => h q (List.mem_cons_of_mem _ hq))

theorem buildMap_values (m : List (String × Paper)) :
    ∀ acc : List (String × Paper), MapWF (acc ++ m) →
      buildMap (m.map Prod.snd) acc = acc ++ m := by
  induction m with
  | nil =>
    intro acc _
    simp [buildMap]
  | cons kv rest ih =>
    intro acc hwf
    have hpid : pid kv.2 = some kv.1 :=
      hwf.1 kv (List.mem_append.mpr (Or.inr (List.mem_cons_self _ _)))
    have hnotin : kv.1 ∉ acc.map Prod.fst := by
      intro hmem
      have hk := hwf.2
      rw [List.map_append] at hk
      rcases (List.nodup_append.mp hk) with ⟨_, _, hdisj⟩
      exact hdisj hmem (by simp)
    have hnone : alookup acc kv.1 = none :=
      (alookup_eq_none_iff acc kv.1).mpr hnotin
    simp only [List.map_cons]
    rw [buildMap_cons_some _ acc kv.2 kv.1 hpid,
        ainsert_of_none acc kv.1 kv.2 hnone]
    have hwf' : MapWF ((acc ++ [(kv.1, kv.2)]) ++ rest) := by
      have : (acc ++ [(kv.1, kv.2)]) ++ rest = acc ++ (kv :: rest) := by
        simp
      rw [this]
      exact hwf
    rw [ih (acc ++ [(kv.1, kv.2)]) hwf']
    simp

theorem addNew_preserve (ps : List Paper) :
    ∀ (m : List (String × Paper)) (c : Nat) (i : String),
      (alookup m i).isSome = true →
      alookup (addNew ps m c).1 i = alookup m i := by
  induction ps with
  | nil =>
    intro m c i _
    rfl
  | cons q rest ih =>
    intro m c i h
    cases hq : pid q with
    | some j =>
      by_cases hj : (alookup m j).isSome = true
      · rw [addNew_cons_some_present rest m c q j hq hj]
        exact ih m c i h
      · rw [addNew_cons_some_absent rest m c q j hq hj]
        have hij : ¬ i = j := by
          intro hc
          rw [hc] at h
          exact hj h
        rw [ih _ _ i (ainsert_isSome m j i q h),
            alookup_ainsert_ne _ _ _ _ hij]
    | none =>
      rw [addNew_cons_none rest m c q hq]
      exact ih m c i h

theorem buildMap_lookup_mem (ps : List Paper) :
    ∀ (m : List (String × Paper)) (i : String) (v : Paper),
      alookup (buildMap ps m) i = some v →
      v ∈ ps ∨ alookup m i = some v := by
  induction ps with
  | nil =>
    intro m i v h
    exact Or.inr h
  | cons p rest ih =>
    intro m i v h
    cases hpid : pid p with
    | some j =>
      rw [buildMap_cons_some rest m p j hpid] at h
      rcases ih _ i v h with h1 | h1
      · exact Or.inl (List.mem_cons_of_mem _ h1)
      · by_cases hij : i = j
        · rw [hij, alookup_ainsert_self] at h1
          injection h1 with h1
          subst h1
          exact Or.inl (List.mem_cons_self _ _)
        · rw [alookup_ainsert_ne _ _ _ _ hij] at h1
          exact Or.inr h1
    | none =>
      rw [buildMap_cons_none rest m p hpid] at h
      rcases ih m i v h with h1 | h1
      · exact Or.inl (List.mem_cons_of_mem _ h1)
      · exact Or.inr h1

theorem buildMap_mono (ps : List Paper) :
    ∀ (m : List (String × Paper)) (i : String),
      (alookup m i).isSome = true →
      (alookup (buildMap ps m) i).isSome = true := by
  induction ps with
  | nil =>
    intro m i h
    exact h
  | cons p rest ih =>
    intro m i h
    cases hpid : pid p with
    | some j =>
      rw [buildMap_cons_some rest m p j hpid]
      exact ih _ i (ainsert_isSome m j i p h)
    | none =>
      rw [buildMap_cons_none rest m p hpid]
      exact ih m i h

theorem buildMap_covers (ps : List Paper) :
    ∀ (m : List (String × Paper)) (p : Paper), p ∈ ps →
      ∀ i, pid p = some i →
      (alookup (buildMap ps m) i).isSome = true := by
  induction ps with
  | nil =>
    intro m p hp
    cases hp
  | cons q rest ih =>
    intro m p hp i hpi
    cases hq : pid q with
    | some j =>
      rw [buildMap_cons_some rest m q j hq]
      rcases List.mem_cons.mp hp with rfl | hp'
      · rw [hpi] at hq
        injection hq with hq
        subst hq
        exact buildMap_mono rest _ i (by rw [alookup_ainsert_self]; rfl)
      · exact ih _ p hp' i hpi
    | none =>
      rw [buildMap_cons_none rest m q hq]
      rcases List.mem_cons.mp hp with rfl | hp'
      · rw [hpi] at hq
        cases hq
      · exact ih m p hp' i hpi

theorem MapWF_filter_values (m : List (String × Paper)) (i : String)
    (v : Paper) (hm : MapWF m) (h : alookup m i = some v) :
    (m.map Prod.snd).filter (fun p => decide (pid p = some i)) = [v] := by
  induction m with
  | nil => simp [alookup] at h
  | cons kv rest ih =>
    have hpid : pid kv.2 = some kv.1 := hm.1 kv (List.mem_cons_self _ _)
    have hrest : MapWF rest := by
      constructor
      · intro kw hkw
        exact hm.1 kw (List.mem_cons_of_mem _ hkw)
      · have := hm.2
        rw [List.map_cons] at this
        exact (List.nodup_cons.mp this).2
    have hknotin : kv.1 ∉ rest.map Prod.fst := by
      have := hm.2
      rw [List.map_cons] at this
      exact (List.nodup_cons.mp this).1
    by_cases hk : kv.1 = i
    · rw [show alookup (kv :: rest) i = some kv.2 from by
        simp [alookup, hk]] at h
      injection h with h
      subst h
      simp only [List.map_cons]
      rw [List.filter_cons_of_pos (by simp [hpid, hk])]
      have hnil : (rest.map Prod.snd).filter
          (fun p => decide (pid p = some i)) = [] := by
        apply List.filter_eq_nil_iff.mpr
        intro p hp
        rcases List.mem_map.mp hp with ⟨kw, hkw, rfl⟩
        have hkpid := hrest.1 kw hkw
        simp only [hkpid, decide_eq_true_eq, Option.some.injEq]
        intro hc
        apply hknotin
        rw [hk, ← hc]
        exact List.mem_map.mpr ⟨kw, hkw, rfl⟩
      rw [hnil]
    · rw [show alookup (kv :: rest) i = alookup rest i from by
        simp [alookup, hk]] at h
      simp only [List.map_cons]
      rw [List.filter_cons_of_neg (by simp [hpid, hk])]
      exact ih hrest h


theorem merge_result_papers (e n : List Paper) :
    (merged_papers_list e n).papers =
      appendIdless ((addNew n (buildMap e []) 0).1.map Prod.snd)
        (e ++ n.filter (fun p => pid p = none)) := rfl

theorem merge_idem (e n : List Paper) :
    (merged_papers_list (merged_papers_list e n).papers n).papers =
      (merged_papers_list e n).papers := by
  have hWF1 : MapWF (addNew n (buildMap e []) 0).1 :=
    MapWF_addNew n (buildMap e []) 0 (MapWF_buildMap e [] MapWF_nil)
  have hUid : ∀ p ∈ (addNew n (buildMap e []) 0).1.map Prod.snd,
      ¬ pid p = none := by
    intro p hp
    rcases List.mem_map.mp hp with ⟨kv, hkv, rfl⟩
    rw [hWF1.1 kv hkv]
    simp
  have hext : (merged_papers_list e n).papers =
      (addNew n (buildMap e []) 0).1.map Prod.snd ++
        appendIdlessExtra ((addNew n (buildMap e []) 0).1.map Prod.snd)
          (e ++ n.filter (fun p => pid p = none)) := by
    rw [merge_result_papers, appendIdless_eq_extra]
  have hm0' : buildMap (merged_papers_list e n).papers [] =
      (addNew n (buildMap e []) 0).1 := by
    rw [hext, buildMap_append]
    rw [buildMap_idless _ _ (fun p hp => appendIdlessExtra_idless _ _ p hp)]
    exact buildMap_values _ [] (by simpa using hWF1)
  have hmc' : addNew n (buildMap (merged_papers_list e n).papers []) 0 =
      ((addNew n (buildMap e []) 0).1, 0) := by
    rw [hm0']
    exact addNew_noop n _ 0
      (fun p hp i hpi => addNew_covers n (buildMap e []) 0 p hp i hpi)
  have hcov : ∀ p ∈ n.filter (fun p => pid p = none), pid p = none →
      coversIdless ((addNew n (buildMap e []) 0).1.map Prod.snd ++
        appendIdlessExtra ((addNew n (buildMap e []) 0).1.map Prod.snd)
          (e ++ n.filter (fun p => pid p = none))) p = true := by
    intro p hp hpn
    rw [← appendIdless_eq_extra]
    exact appendIdless_coverage _ _ p (List.mem_append.mpr (Or.inr hp)) hpn
  rw [merge_result_papers (merged_papers_list e n).papers n, hmc']
  conv_lhs =>
    rw [hext]
  rw [appendIdless_append, appendIdless_append,
      appendIdless_all_some _ _ hUid, appendIdless_replay,
      appendIdless_covered _ _ hcov, hext]


theorem merge_no_overwrite (e n : List Paper) (i : String)
    (h : ∃ p ∈ e, pid p = some i) :
    ∃ v, v ∈ e ∧ (merged_papers_list e n).papers.filter
      (fun p => decide (pid p = some i)) = [v] := by
  rcases h with ⟨p, hp, hpi⟩
  have hs : (alookup (buildMap e []) i).isSome = true :=
    buildMap_covers e [] p hp i hpi
  rcases Option.isSome_iff_exists.mp hs with ⟨v, hv⟩
  have hv1 : alookup (addNew n (buildMap e []) 0).1 i = some v := by
    rw [addNew_preserve n _ 0 i hs]
    exact hv
  have hvmem : v ∈ e := by
    rcases buildMap_lookup_mem e [] i v hv with h1 | h1
    · exact h1
    · rw [alookup_nil] at h1
      cases h1
  have hWF1 : MapWF (addNew n (buildMap e []) 0).1 :=
    MapWF_addNew n (buildMap e []) 0 (MapWF_buildMap e [] MapWF_nil)
  refine ⟨v, hvmem, ?_⟩
  rw [merge_result_papers, appendIdless_eq_extra, List.filter_append]
  rw [MapWF_filter_values _ i v hWF1 hv1]
  have hnil : (appendIdlessExtra
      ((addNew n (buildMap e []) 0).1.map Prod.snd)
      (e ++ n.filter (fun p => pid p = none))).filter
      (fun p => decide (pid p = some i)) = [] := by
    apply List.filter_eq_nil_iff.mpr
    intro q hq
    rw [appendIdlessExtra_idless _ _ q hq]
    simp
  rw [hnil]
  simp

/-- C2: ledger merge is idempotent (merging the same failure set twice
equals merging once); an identity already present in the ledger keeps
exactly its original record, never duplicated or overwritten by a new
failure with the same identity; and merging failures {X, Y} then {Y, Z}
into one ledger yields exactly {X, Y, Z}, each identity once, keeping the
first Y record. -/
theorem claim_C2_ledger_merge :
    (∀ e n, (merged_papers_list (merged_papers_list e n).papers n).papers =
      (merged_papers_list e n).papers) ∧
    (∀ e n i, (∃ p ∈ e, pid p = some i) →
      ∃ v, v ∈ e ∧ (merged_papers_list e n).papers.filter
        (fun p => decide (pid p = some i)) = [v]) ∧
    ((merged_papers_list
        (merged_papers_list []
          [{ entry_id := some "X", failure_reason := some "r1" },
           { entry_id := some "Y", failure_reason := some "r1" }]).papers
        [{ entry_id := some "Y", failure_reason := some "r2" },
         { entry_id := some "Z", failure_reason := some "r2" }]).papers =
      [{ entry_id := some "X", failure_reason := some "r1" },
       { entry_id := some "Y", failure_reason := some "r1" },
       { entry_id := some "Z", failure_reason := some "r2" }]) := by
  refine ⟨merge_idem, merge_no_overwrite, ?_⟩
  decide

/-- Witness for C2 at a concrete input: a ledger holding identity X merged
with a new failure for the same identity keeps exactly the original X
record. -/
theorem claim_C2_witness :
    (merged_papers_list [{ entry_id := some "X" }]
      [{ entry_id := some "X", failure_reason := some "again" }]).papers.filter
      (fun p => decide (pid p = some "X")) =
      [{ entry_id := some "X" }] := by
  obtain ⟨v, hv, hf⟩ := claim_C2_ledger_merge.2.1
    [{ entry_id := some "X" }]
    [{ entry_id := some "X", failure_reason := some "again" }] "X"
    ⟨{ entry_id := some "X" }, List.mem_singleton.mpr rfl, by decide⟩
  rw [List.mem_singleton] at hv
  subst hv
  exact hf

theorem addNew_count_le (ps : List Paper) :
    ∀ (m : List (String × Paper)) (c : Nat), c ≤ (addNew ps m c).2 := by
  induction ps with
  | nil =>
    intro m c
    exact Nat.le_refl c
  | cons q rest ih =>
    intro m c
    cases hq : pid q with
    | some j =>
      by_cases hj : (alookup m j).isSome = true
      · rw [addNew_cons_some_present rest m c q j hq hj]
        exact ih m c
      · rw [addNew_cons_some_absent rest m c q j hq hj]
        exact Nat.le_trans (Nat.le_succ c) (ih _ (c + 1))
    | none =>
      rw [addNew_cons_none rest m c q hq]
      exact ih m c

theorem addNew_count_pos_of (ps : List Paper) :
    ∀ (m : List (String × Paper)) (c : Nat) (p : Paper), p ∈ ps →
      ∀ i, pid p = some i → alookup m i = none →
      c < (addNew ps m c).2 := by
  induction ps with
  | nil =>
    intro m c p hp
    cases hp
  | cons q rest ih =>
    intro m c p hp i hpi hmi
    cases hq : pid q with
    | some j =>
      by_cases hj : (alookup m j).isSome = true
      · rw [addNew_cons_some_present rest m c q j hq hj]
        rcases List.mem_cons.mp hp with rfl | hp'
        · rw [hpi] at hq
          injection hq with hq
          subst hq
          rw [hmi] at hj
          simp at hj
        · exact ih m c p hp' i hpi hmi
      · rw [addNew_cons_some_absent rest m c q j hq hj]
        exact Nat.lt_of_lt_of_le (Nat.lt_succ_self c)
          (addNew_count_le rest _ (c + 1))
    | none =>
      rw [addNew_cons_none rest m c q hq]
      rcases List.mem_cons.mp hp with rfl | hp'
      · rw [hpi] at hq
        cases hq
      · exact ih m c p hp' i hpi hmi

theorem addNew_pos_exists (ps : List Paper) :
    ∀ (m : List (String × Paper)) (c : Nat), c < (addNew ps m c).2 →
      ∃ p ∈ ps, ∃ i, pid p = some i ∧ alookup m i = none := by
  induction ps with
  | nil =>
    intro m c h
    exact absurd h (Nat.lt_irrefl c)
  | cons q rest ih =>
    intro m c h
    cases hq : pid q with
    | some j =>
      by_cases hj : (alookup m j).isSome = true
      · rw [addNew_cons_some_present rest m c q j hq hj] at h
        rcases ih m c h with ⟨p, hp, i, hpi, hmi⟩
        exact ⟨p, List.mem_cons_of_mem _ hp, i, hpi, hmi⟩
      · exact ⟨q, List.mem_cons_self _ _, j, hq,
          Option.not_isSome_iff_eq_none.mp (by simpa using hj)⟩
    | none =>
      rw [addNew_cons_none rest m c q hq] at h
      rcases ih m c h with ⟨p, hp, i, hpi, hmi⟩
      exact ⟨p, List.mem_cons_of_mem _ hp, i, hpi, hmi⟩

theorem buildMap_key_iff (e : List Paper) (i : String) :
    (alookup (buildMap e []) i).isSome = true ↔
      ∃ p ∈ e, pid p = some i := by
  constructor
  · intro h
    rcases Option.isSome_iff_exists.mp h with ⟨v, hv⟩
    have hmem : (i, v) ∈ buildMap e [] := alookup_mem hv
    have hWF := MapWF_buildMap e [] MapWF_nil
    have hpid := hWF.1 (i, v) hmem
    rcases buildMap_lookup_mem e [] i v hv with h1 | h1
    · exact ⟨v, h1, hpid⟩
    · rw [alookup_nil] at h1
      cases h1
  · rintro ⟨p, hp, hpi⟩
    exact buildMap_covers e [] p hp i hpi

theorem coversIdless_exists (acc : List Paper) (p : Paper) :
    coversIdless acc p = true ↔
      ∃ q ∈ acc, pid q = none ∧ q.title = p.title := by
  unfold coversIdless
  rw [List.any_eq_true]
  constructor
  · rintro ⟨q, hq, hqq⟩
    rw [Bool.and_eq_true, decide_eq_true_eq, decide_eq_true_eq] at hqq
    exact ⟨q, hq, hqq⟩
  · rintro ⟨q, hq, h1, h2⟩
    refine ⟨q, hq, ?_⟩
    rw [Bool.and_eq_true, decide_eq_true_eq, decide_eq_true_eq]
    exact ⟨h1, h2⟩

theorem merged_newlyAdded_pos_iff (e n : List Paper) :
    0 < (merged_papers_list e n).newlyAdded ↔
      ∃ p ∈ n, ∃ i, pid p = some i ∧ ∀ q ∈ e, ¬ pid q = some i := by
  have hrw : (merged_papers_list e n).newlyAdded =
      (addNew n (buildMap e []) 0).2 := rfl
  rw [hrw]
  constructor
  · intro h
    rcases addNew_pos_exists n (buildMap e []) 0 h with ⟨p, hp, i, hpi, hmi⟩
    refine ⟨p, hp, i, hpi, ?_⟩
    intro q hq hqi
    have := (buildMap_key_iff e i).mpr ⟨q, hq, hqi⟩
    rw [hmi] at this
    simp at this
  · rintro ⟨p, hp, i, hpi, hall⟩
    have hmi : alookup (buildMap e []) i = none := by
      rw [← Option.not_isSome_iff_eq_none]
      intro hs
      rcases (buildMap_key_iff e i).mp (by simpa using hs) with ⟨q, hq, hqi⟩
      exact hall q hq hqi
    exact addNew_count_pos_of n (buildMap e []) 0 p hp i hpi hmi

/-- C7 (amended): a new identity-less failure record is appended to the
merged set unless an identity-less record with the same title is already
present (identity-less records are deduplicated by title, so some
identity-less record with the same title is always present after the
merge); the ledger file is rewritten iff a non-empty failure list was
passed and either some new failure carries an identity absent from the
ledger or the file did not previously exist; when it is not rewritten the
on-disk record set is unchanged. -/
theorem claim_C7_amended (fe : Bool) (e n : List Paper) :
    (∀ p ∈ n, pid p = none →
      ∃ q ∈ (merged_papers_list e n).papers, pid q = none ∧
        q.title = p.title) ∧
    ((append_to_failed_log fe e n).2 = true ↔
      (¬ n = [] ∧ ((∃ p ∈ n, ∃ i, pid p = some i ∧
        ∀ q ∈ e, ¬ pid q = some i) ∨ fe = false))) ∧
    ((append_to_failed_log fe e n).2 = false →
      (append_to_failed_log fe e n).1.papers = e) := by
  refine ⟨?_, ?_, ?_⟩
  · intro p hp hpn
    have hmem : p ∈ e ++ n.filter (fun p => pid p = none) :=
      List.mem_append.mpr (Or.inr (List.mem_filter.mpr ⟨hp, by
        rw [hpn]; rfl⟩))
    have hcov := appendIdless_coverage
      (e ++ n.filter (fun p => pid p = none))
      ((addNew n (buildMap e []) 0).1.map Prod.snd) p hmem hpn
    rw [← merge_result_papers] at hcov
    exact (coversIdless_exists _ p).mp hcov
  · by_cases hn : n = []
    · subst hn
      simp [append_to_failed_log]
    · unfold append_to_failed_log
      rw [if_neg hn]
      by_cases hc : 0 < (merged_papers_list e n).newlyAdded ∨ ¬ fe = true
      · rw [if_pos hc]
        constructor
        · intro _
          refine ⟨hn, ?_⟩
          rcases hc with hc | hc
          · exact Or.inl ((merged_newlyAdded_pos_iff e n).mp hc)
          · exact Or.inr (Bool.not_eq_true fe ▸ hc)
        · intro _
          rfl
      · rw [if_neg hc]
        constructor
        · intro h
          simp at h
        · rintro ⟨_, h | h⟩
          · exact absurd (Or.inl ((merged_newlyAdded_pos_iff e n).mpr h)) hc
          · refine absurd (Or.inr ?_) hc
            rw [h]
            simp
  · intro h
    unfold append_to_failed_log at h ⊢
    by_cases hn : n = []
    · rw [if_pos hn]
    · rw [if_neg hn] at h ⊢
      by_cases hc : 0 < (merged_papers_list e n).newlyAdded ∨ ¬ fe = true
      · rw [if_pos hc] at h
        cases h
      · rw [if_neg hc]

/-- Counterexample for C7 as stated: (i) a new identity-less failure whose
title matches an identity-less ledger entry is not appended to the merged
set; (ii) a merge that changes the record set only by appending an
identity-less record does not rewrite an existing ledger file. -/
theorem claim_C7_counterexample :
    ¬ (({ title := some "t", pdf_url := some "v2" } : Paper) ∈
        (merged_papers_list [{ title := some "t" }]
          [{ title := some "t", pdf_url := some "v2" },
           { entry_id := some "x" }]).papers) ∧
    (append_to_failed_log true [{ entry_id := some "y" }]
        [{ title := some "s" }]).2 = false ∧
    ¬ (merged_papers_list [{ entry_id := some "y" }]
        [{ title := some "s" }]).papers = [{ entry_id := some "y" }] := by
  refine ⟨by decide, by decide, by decide⟩

/-- Witness for the amended C7 at concrete inputs: a genuinely new
identity-bearing failure triggers a rewrite, and an empty failure list
leaves the file untouched. -/
theorem claim_C7_witness :
    (append_to_failed_log true [] [{ entry_id := some "X" }]).2 = true ∧
    (append_to_failed_log false [{ entry_id := some "X" }] []).1.papers =
      [{ entry_id := some "X" }] := by
  refine ⟨?_, ?_⟩
  · exact (claim_C7_amended true [] [{ entry_id := some "X" }]).2.1.mpr
      ⟨by decide, Or.inl ⟨{ entry_id := some "X" },
        List.mem_singleton.mpr rfl, "X", by decide,
        fun q hq => absurd hq (List.not_mem_nil q)⟩⟩
  · exact (claim_C7_amended false [{ entry_id := some "X" }] []).2.2
      (by decide)

end ArxivDL

